import Mathlib

/-!
Verification development for the market_simulation repository.

Modelling conventions (shallow embedding of the Python source):
* Python `float` values (prices, tick sizes, timestamps in seconds) are
  modelled as exact rationals `ℚ`; the source's explicit floating-point
  tolerance `ERROR_TOLERANCE = 1e-9` is kept as the rational `1/10^9`.
* Python `int` is modelled as `ℤ`.
* Python `round` (round half to even) is modelled by `pyRound`;
  `numpy.ceil` by `Int.ceil`.
* `datetime` instants are modelled as rationals (seconds); `timedelta`
  addition becomes rational addition.  `Trade.timestamp` (wall-clock
  `datetime.now()`) is omitted: no claim mentions it.
* In-place mutation (`order.amount -= x`, deque updates) is modelled by
  explicit state passing: functions return the updated order/book.
* Raised exceptions become `Except` errors; `orderbook.add_order` raises
  `ValueError` for an instrument mismatch or an invalid limit price, and
  the spec names these `InstrumentMismatchError` / `InvalidPriceError`.
* Calls to random primitives (`random`, `uniform`, `expovariate`,
  `randint`, `hash`) are modelled as oracle inputs: each generated order
  consumes one `Draws` record holding the values those calls returned.
-/

/-- Embeds `instrument.Instrument` (src/instrument.py): static reference
data; dataclass equality compares all fields. -/
structure Instrument where
  code : String
  name : String
  is_active : Bool
  min_tick_size : ℚ
deriving DecidableEq

/-- Embeds `order.OrderSide` (src/order.py). -/
inductive OrderSide where
  | BUY
  | SELL
deriving DecidableEq

/-- Embeds `order.OrderType` (src/order.py). -/
inductive OrderType where
  | LIMIT
  | MARKET
deriving DecidableEq

/-- Embeds `order.Order` (src/order.py): the dataclass fields
`counterpart_id, instrument, order_type, side, amount, price`, plus the
attributes `id` and `timestamp` that the source attaches after
instantiation via `generate_id` / `add_timestamp` (modelled as ordinary
fields, set by those operations). -/
structure Order where
  counterpart_id : ℤ
  instrument : Instrument
  order_type : OrderType
  side : OrderSide
  amount : ℤ
  price : Option ℚ
  id : ℤ
  timestamp : ℚ
deriving DecidableEq

/-- Embeds `Order.add_timestamp` (src/order.py line 34). -/
def Order.add_timestamp (o : Order) (t : ℚ) : Order := { o with timestamp := t }

/-- Embeds `Order.generate_id` (src/order.py line 38): the source sets
`self.id = hash(self.__str__())`; the hash value is an oracle input. -/
def Order.generate_id (o : Order) (h : ℤ) : Order := { o with id := h }

/-- Numeric value of an order's optional price: `price.getD 0` mirrors the
source's `(order.price or 0.0)` in `_insert_bid` / `_insert_ask` (a `None`
or `0.0` price both read as `0.0`); everywhere else the source reads
`order.price` raw, which only type-checks when the price is present — all
claims about those paths carry a hypothesis that LIMIT orders have a
price, under which `getD 0` coincides with the raw read. -/
def Order.priceQ (o : Order) : ℚ := o.price.getD 0

/-- Embeds `trade.Trade` (src/trade.py); the wall-clock `timestamp` field
is omitted (see module docstring). -/
structure Trade where
  buy_order_id : ℤ
  sell_order_id : ℤ
  instrument : Instrument
  price : ℚ
  amount : ℤ
deriving DecidableEq

/-- Embeds `orderbook.ERROR_TOLERANCE = 1e-9` (src/orderbook.py line 11). -/
def ERROR_TOLERANCE : ℚ := 1 / 1000000000

/-- Embeds Python's builtin `round` (round half to even) on our rational
model of floats: used by `_validate_limit_price`. -/
def pyRound (q : ℚ) : ℤ :=
  if q - ⌊q⌋ < 1 / 2 then ⌊q⌋
  else if 1 / 2 < q - ⌊q⌋ then ⌊q⌋ + 1
  else if ⌊q⌋ % 2 = 0 then ⌊q⌋ else ⌊q⌋ + 1

/-- Embeds the quantity `abs(round(price / tick_size) * tick_size - price)`
computed by `OrderBook._validate_limit_price` (src/orderbook.py line 34). -/
def tickError (tick price : ℚ) : ℚ :=
  |(pyRound (price / tick) : ℚ) * tick - price|

/-- A price passes `OrderBook._validate_limit_price` (no exception raised)
exactly when the tick error does not exceed the tolerance
(src/orderbook.py lines 34-36). -/
def validLimitPrice (tick price : ℚ) : Bool :=
  decide (tickError tick price ≤ ERROR_TOLERANCE)

/-- Embeds `orderbook.OrderBook.__init__` state (src/orderbook.py
lines 20-25): instrument, bid queue, ask queue, append-only trade log. -/
structure OrderBook where
  instrument : Instrument
  bids : List Order
  asks : List Order
  trades : List Trade
deriving DecidableEq

/-- The two validation failures `add_order` can raise; the source raises
`ValueError` in both places (src/orderbook.py lines 36 and 45), which the
spec names `InvalidPriceError` and `InstrumentMismatchError`. -/
inductive BookError where
  | instrumentMismatch
  | invalidPrice
deriving DecidableEq

/-- Embeds the scan loop of `OrderBook._has_sufficient_liquidity`
(src/orderbook.py lines 184-199): accumulate resting amounts in queue
order, returning true as soon as the running total covers `needed`. -/
def liquidityScan (needed : ℤ) : ℤ → List Order → Bool
  | _, [] => false
  | total, o :: rest =>
    if needed ≤ total + o.amount then true
    else liquidityScan needed (total + o.amount) rest

/-- Embeds `OrderBook._has_sufficient_liquidity` (src/orderbook.py
lines 184-199). -/
def OrderBook.hasSufficientLiquidity (bk : OrderBook) (incoming : Order)
    (side : OrderSide) : Bool :=
  match side with
  | OrderSide.BUY => liquidityScan incoming.amount 0 bk.asks
  | OrderSide.SELL => liquidityScan incoming.amount 0 bk.bids

/-- Embeds `OrderBook._insert_bid` (src/orderbook.py lines 162-171):
insert before the first resting order whose price is strictly lower,
else append (so a tie goes after all equal-priced orders: FIFO). -/
def insert_bid (o : Order) : List Order → List Order
  | [] => [o]
  | e :: rest =>
    if e.priceQ < o.priceQ then o :: e :: rest
    else e :: insert_bid o rest

/-- Embeds `OrderBook._insert_ask` (src/orderbook.py lines 173-182). -/
def insert_ask (o : Order) : List Order → List Order
  | [] => [o]
  | e :: rest =>
    if o.priceQ < e.priceQ then o :: e :: rest
    else e :: insert_ask o rest

/-- Embeds the while-loop of `OrderBook._execute_buy_matches`
(src/orderbook.py lines 85-122), recursing on the ask queue.  Returns the
updated incoming order, the updated ask queue and the emitted trades, in
emission order.  In the branch where the best ask is only partially
filled the source breaks out of the loop: there `matched` equals the
incoming amount (the minimum of the two amounts differs from the ask's
remaining amount), so the incoming order is exhausted and the loop
condition fails — returning directly is the loop's exact behaviour. -/
def execBuyMatches (instr : Instrument) (buy : Order) :
    List Order → Order × List Order × List Trade
  | [] => (buy, [], [])
  | best :: rest =>
    if buy.amount ≤ 0 then (buy, best :: rest, [])
    else if buy.order_type = OrderType.LIMIT ∧
        buy.priceQ < best.priceQ - ERROR_TOLERANCE then
      (buy, best :: rest, [])
    else
      let matched := min buy.amount best.amount
      let tr : Trade := { buy_order_id := buy.id, sell_order_id := best.id,
                          instrument := instr, price := best.priceQ,
                          amount := matched }
      let buy' := { buy with amount := buy.amount - matched }
      let best' := { best with amount := best.amount - matched }
      if best'.amount = 0 then
        let r := execBuyMatches instr buy' rest
        (r.1, r.2.1, tr :: r.2.2)
      else
        (buy', best' :: rest, [tr])

/-- Embeds the while-loop of `OrderBook._execute_sell_matches`
(src/orderbook.py lines 124-160), recursing on the bid queue; symmetric
to `execBuyMatches`. -/
def execSellMatches (instr : Instrument) (sell : Order) :
    List Order → Order × List Order × List Trade
  | [] => (sell, [], [])
  | best :: rest =>
    if sell.amount ≤ 0 then (sell, best :: rest, [])
    else if sell.order_type = OrderType.LIMIT ∧
        best.priceQ + ERROR_TOLERANCE < sell.priceQ then
      (sell, best :: rest, [])
    else
      let matched := min sell.amount best.amount
      let tr : Trade := { buy_order_id := best.id, sell_order_id := sell.id,
                          instrument := instr, price := best.priceQ,
                          amount := matched }
      let sell' := { sell with amount := sell.amount - matched }
      let best' := { best with amount := best.amount - matched }
      if best'.amount = 0 then
        let r := execSellMatches instr sell' rest
        (r.1, r.2.1, tr :: r.2.2)
      else
        (sell', best' :: rest, [tr])

/-- Embeds `OrderBook._match_buy_order` (src/orderbook.py lines 55-68):
MARKET orders are liquidity-checked first and rejected with zero trades
and no mutation when the check fails; otherwise matching runs and a
leftover LIMIT residual is inserted into the bids. -/
def matchBuyOrder (bk : OrderBook) (buy : Order) : OrderBook × List Trade :=
  if buy.order_type = OrderType.MARKET ∧
      bk.hasSufficientLiquidity buy OrderSide.BUY = false then
    (bk, [])
  else
    let r := execBuyMatches bk.instrument buy bk.asks
    let bids' := if 0 < r.1.amount ∧ r.1.order_type = OrderType.LIMIT then
        insert_bid r.1 bk.bids
      else bk.bids
    ({ bk with bids := bids', asks := r.2.1, trades := bk.trades ++ r.2.2 },
     r.2.2)

/-- Embeds `OrderBook._match_sell_order` (src/orderbook.py lines 70-83). -/
def matchSellOrder (bk : OrderBook) (sell : Order) : OrderBook × List Trade :=
  if sell.order_type = OrderType.MARKET ∧
      bk.hasSufficientLiquidity sell OrderSide.SELL = false then
    (bk, [])
  else
    let r := execSellMatches bk.instrument sell bk.bids
    let asks' := if 0 < r.1.amount ∧ r.1.order_type = OrderType.LIMIT then
        insert_ask r.1 bk.asks
      else bk.asks
    ({ bk with bids := r.2.1, asks := asks', trades := bk.trades ++ r.2.2 },
     r.2.2)

/-- Embeds `OrderBook.add_order` (src/orderbook.py lines 39-53): instrument
check, then tick-size check for LIMIT orders, then dispatch on side. -/
def add_order (bk : OrderBook) (o : Order) :
    Except BookError (OrderBook × List Trade) :=
  if o.instrument ≠ bk.instrument then .error .instrumentMismatch
  else if o.order_type = OrderType.LIMIT ∧
      ERROR_TOLERANCE < tickError bk.instrument.min_tick_size o.priceQ then
    .error .invalidPrice
  else
    match o.side with
    | OrderSide.BUY => .ok (matchBuyOrder bk o)
    | OrderSide.SELL => .ok (matchSellOrder bk o)

/-- State transition of one `add_order` call as seen by a caller holding
the book: a raised validation error leaves the book untouched (the source
raises before any mutation). -/
def applyOrder (bk : OrderBook) (o : Order) : OrderBook :=
  match add_order bk o with
  | .ok r => r.1
  | .error _ => bk

/-- Sequential submission of a list of orders to the book. -/
def applyOrders (bk : OrderBook) (l : List Order) : OrderBook :=
  l.foldl applyOrder bk

/-- A freshly constructed book (src/orderbook.py lines 20-25). -/
def emptyBook (instr : Instrument) : OrderBook :=
  { instrument := instr, bids := [], asks := [], trades := [] }

/-- Total resting amount of a queue. -/
def sumAmounts (l : List Order) : ℤ := (l.map Order.amount).sum

/-- Total amount across a list of trades. -/
def sumTradeAmounts (l : List Trade) : ℤ := (l.map Trade.amount).sum

/-- A well-formed incoming order per the spec's data model: positive
amount, and a price present exactly when the order is LIMIT. -/
def WellFormedOrder (o : Order) : Prop :=
  0 < o.amount ∧ (o.order_type = OrderType.LIMIT ↔ o.price.isSome = true)

/-- What the spec's book invariant demands of each resting order, relative
to the book's instrument. -/
def RestingValid (instr : Instrument) (o : Order) : Prop :=
  0 < o.amount ∧ o.order_type = OrderType.LIMIT ∧
    o.instrument = instr ∧ o.price.isSome = true

/-- Bid queue ordering: non-increasing prices front to back. -/
def sortedBids (l : List Order) : Prop :=
  l.Chain' fun a b => b.priceQ ≤ a.priceQ

/-- Ask queue ordering: non-decreasing prices front to back. -/
def sortedAsks (l : List Order) : Prop :=
  l.Chain' fun a b => a.priceQ ≤ b.priceQ

/-- The spec's order-book invariant (spec section 3): sorted queues and
every resting order valid. -/
def BookInv (bk : OrderBook) : Prop :=
  sortedBids bk.bids ∧ sortedAsks bk.asks ∧
    (∀ o ∈ bk.bids, RestingValid bk.instrument o) ∧
    (∀ o ∈ bk.asks, RestingValid bk.instrument o)

instance : DecidablePred WellFormedOrder := fun o => by
  unfold WellFormedOrder; infer_instance

instance (instr : Instrument) : DecidablePred (RestingValid instr) := fun o => by
  unfold RestingValid; infer_instance

instance (l : List Order) : Decidable (sortedBids l) := by
  unfold sortedBids; infer_instance

instance (l : List Order) : Decidable (sortedAsks l) := by
  unfold sortedAsks; infer_instance

instance (bk : OrderBook) : Decidable (BookInv bk) := by
  unfold BookInv; infer_instance

/-- Embeds `_round_up` from src/orderbook_factory.py lines 12-14:
`float(np.ceil(x / a) * a)`, i.e. round `x` up to the nearest multiple
of `a`. -/
def round_up (x a : ℚ) : ℚ := (⌈x / a⌉ : ℤ) * a

/-- Modelled from the spec: `OrderBook.get_midprice` is called by
`OrderFactory._generate_order_price` (src/orderbook_factory.py line 70
and src/order_factory.py line 95) but is not defined anywhere under src;
the spec's glossary defines the midprice as "typically the average of
best bid and best ask", which this definition follows (0 standing in for
a missing side of an empty book). -/
def OrderBook.get_midprice (bk : OrderBook) : ℚ :=
  (((bk.bids.head?).map Order.priceQ).getD 0 +
    ((bk.asks.head?).map Order.priceQ).getD 0) / 2

/-- Oracle record holding the values returned by the random primitives
consumed while generating one order (see module docstring). -/
structure Draws where
  counterpartDraw : ℤ
  intervalDraw : ℚ
  sideDraw : ℚ
  typeDraw : ℚ
  amountDraw : ℚ
  offsetDraw : ℚ
  hashDraw : ℤ
deriving DecidableEq

/-- Embeds the constructor state of `orderbook_factory.OrderFactory`
(src/orderbook_factory.py lines 22-44).  The source fields `buy_ratio`
and `limit_order_ratio` are carried here as `buy_prob` and
`limit_order_prob`. -/
structure OrderFactory where
  instrument : Instrument
  orderbook : OrderBook
  arrivals_rate : ℚ
  buy_prob : ℚ
  limit_order_prob : ℚ
  min_consideration : ℤ
  max_amount : ℤ
  max_halfspread : ℚ
  static_order_type : Option OrderType
  static_midprice : Option ℚ

/-- Embeds `OrderFactory._generate_order_side` (src/orderbook_factory.py
lines 54-56): BUY when the uniform draw falls below the buy ratio. -/
def OrderFactory.genOrderSide (f : OrderFactory) (d : Draws) : OrderSide :=
  if d.sideDraw < f.buy_prob then OrderSide.BUY else OrderSide.SELL

/-- Embeds the order-type choice of `OrderFactory.generate_order`
(src/orderbook_factory.py lines 81-85 plus `_genereate_order_type`,
lines 58-60): a configured static type (enum members are always truthy
in Python) overrides the random draw. -/
def OrderFactory.genOrderType (f : OrderFactory) (d : Draws) : OrderType :=
  match f.static_order_type with
  | some t => t
  | none =>
    if d.typeDraw < f.limit_order_prob then OrderType.LIMIT
    else OrderType.MARKET

/-- Embeds `OrderFactory._generate_order_amount` (src/orderbook_factory.py
lines 62-64): the exponential draw is rounded up and clamped to
`max_amount`. -/
def OrderFactory.genOrderAmount (f : OrderFactory) (d : Draws) : ℤ :=
  min ⌈d.amountDraw⌉ f.max_amount

/-- Embeds `OrderFactory._generate_order_price` (src/orderbook_factory.py
lines 66-72): a drawn offset is negated for BUY orders; the reference
midprice is `self.static_midprice if self.static_midprice else
self.orderbook.get_midprice()` — Python truthiness, so both a `None` and
a `0.0` static midprice fall through to the live book query; the result
is rounded up to the tick grid. -/
def OrderFactory.generate_order_price (f : OrderFactory) (side : OrderSide)
    (d : Draws) : ℚ :=
  let off := if side = OrderSide.SELL then d.offsetDraw else -d.offsetDraw
  let mid := match f.static_midprice with
    | some m => if m = 0 then f.orderbook.get_midprice else m
    | none => f.orderbook.get_midprice
  round_up (mid + off) f.instrument.min_tick_size

/-- Embeds `OrderFactory.generate_order` (src/orderbook_factory.py
lines 74-101): the interarrival time is the order's `intervalDraw`;
`id` and `timestamp` are filled in later by `generate_orders`. -/
def OrderFactory.generate_order (f : OrderFactory) (d : Draws) : Order :=
  let side := f.genOrderSide d
  let amt := f.genOrderAmount d
  let ty := f.genOrderType d
  { counterpart_id := d.counterpartDraw
    instrument := f.instrument
    order_type := ty
    side := side
    amount := amt
    price := if ty = OrderType.LIMIT then some (f.generate_order_price side d)
      else none
    id := 0
    timestamp := 0 }

/-- Loop body of `OrderFactory.generate_orders` (src/orderbook_factory.py
lines 103-115): `current` is the running timestamp (the first order is
stamped with `start_time` itself), `i` indexes the oracle stream, and the
countdown argument is the number of orders still to produce. -/
def OrderFactory.generate_orders_from (f : OrderFactory) (draws : ℕ → Draws) :
    ℚ → ℕ → ℕ → List Order
  | _, _, 0 => []
  | current, i, Nat.succ n =>
    let d := draws i
    let o := ((f.generate_order d).add_timestamp current).generate_id d.hashDraw
    o :: f.generate_orders_from draws (current + d.intervalDraw) (i + 1) n

/-- Embeds `OrderFactory.generate_orders` (src/orderbook_factory.py
lines 103-115). -/
def OrderFactory.generate_orders (f : OrderFactory) (draws : ℕ → Draws)
    (start_time : ℚ) (n_orders : ℕ) : List Order :=
  f.generate_orders_from draws start_time 0 n_orders

/-- Python runtime error raised by the later order-factory revision. -/
inductive PyErr where
  | nameError
deriving DecidableEq

/-- Embeds the constructor state of `order_factory.OrderFactory`
(src/order_factory.py lines 22-45) as it would exist after the field
assignments; note line 44 (`self.static_order_type = static_order_type`)
reads a name that is not among the constructor's parameters, so in the
source the constructor itself already raises `NameError` — see
`OrderFactory2.generate_order` for the failure inside order generation. -/
structure OrderFactory2 where
  instrument : Instrument
  orderbook : OrderBook
  arrivals_rate : ℚ
  hazard_rate : ℚ
  buy_prob : ℚ
  limit_order_prob : ℚ
  min_consideration : ℤ
  max_amount : ℤ
  max_halfspread : ℚ
  static_midprice : Option ℚ

/-- Embeds `order_factory.OrderFactory.generate_order` (src/order_factory.py
lines 108-141).  Lines 112-114 draw the counterpart id, side and type;
then every path reads the unbound local name `order_amount`: line 118
(the LIMIT branch, `self._generate_order_price(order_amount, order_side)`)
and line 137 (`amount=order_amount` in the `Order` construction of the
MARKET branch), so the call raises `NameError` unconditionally. -/
def OrderFactory2.generate_order (f : OrderFactory2) (d : Draws) :
    Except PyErr Order :=
  let ty := if d.typeDraw < f.limit_order_prob then OrderType.LIMIT
    else OrderType.MARKET
  if ty = OrderType.LIMIT then .error .nameError
  else .error .nameError

/-- Embeds `order_factory.OrderFactory.generate_orders`
(src/order_factory.py lines 143-155): the loop calls `generate_order`
once per requested order, so the first iteration's `NameError`
propagates out of the call. -/
def OrderFactory2.generate_orders (f : OrderFactory2) (draws : ℕ → Draws) :
    ℚ → ℕ → ℕ → Except PyErr (List Order)
  | _, _, 0 => .ok []
  | _prev, i, Nat.succ n =>
    match f.generate_order (draws i) with
    | .error e => .error e
    | .ok o =>
      match OrderFactory2.generate_orders f draws o.timestamp (i + 1) n with
      | .error e => .error e
      | .ok rest => .ok (o :: rest)

/-- The ask queue after a matching pass is a suffix of the prior queue,
except that the new front order may be the old entry at that position
with its amount decreased (but still positive). -/
def SuffixMod (l2 l : List Order) : Prop :=
  ∃ k, l2 = l.drop k ∨
    ∃ hd tl a, l.drop k = hd :: tl ∧ 0 < a ∧ a ≤ hd.amount ∧
      l2 = ({ hd with amount := a } : Order) :: tl

theorem execBuy_stop (instr : Instrument) (buy best : Order)
    (rest : List Order) (h : buy.amount ≤ 0) :
    execBuyMatches instr buy (best :: rest) = (buy, best :: rest, []) := by
  simp only [execBuyMatches]
  rw [if_pos h]

theorem execBuy_break (instr : Instrument) (buy best : Order)
    (rest : List Order) (h : ¬ buy.amount ≤ 0)
    (h2 : buy.order_type = OrderType.LIMIT ∧
      buy.priceQ < best.priceQ - ERROR_TOLERANCE) :
    execBuyMatches instr buy (best :: rest) = (buy, best :: rest, []) := by
  simp only [execBuyMatches]
  rw [if_neg h, if_pos h2]

theorem execBuy_pop (instr : Instrument) (buy best : Order)
    (rest : List Order) (h : ¬ buy.amount ≤ 0)
    (h2 : ¬ (buy.order_type = OrderType.LIMIT ∧
      buy.priceQ < best.priceQ - ERROR_TOLERANCE))
    (h3 : best.amount - min buy.amount best.amount = 0) :
    execBuyMatches instr buy (best :: rest) =
      ((execBuyMatches instr
          { buy with amount := buy.amount - min buy.amount best.amount } rest).1,
       (execBuyMatches instr
          { buy with amount := buy.amount - min buy.amount best.amount } rest).2.1,
       ({ buy_order_id := buy.id, sell_order_id := best.id, instrument := instr,
          price := best.priceQ, amount := min buy.amount best.amount } : Trade) ::
         (execBuyMatches instr
          { buy with amount := buy.amount - min buy.amount best.amount } rest).2.2) := by
  simp only [execBuyMatches]
  rw [if_neg h, if_neg h2]
  simp [h3]

theorem execBuy_partfill (instr : Instrument) (buy best : Order)
    (rest : List Order) (h : ¬ buy.amount ≤ 0)
    (h2 : ¬ (buy.order_type = OrderType.LIMIT ∧
      buy.priceQ < best.priceQ - ERROR_TOLERANCE))
    (h3 : ¬ best.amount - min buy.amount best.amount = 0) :
    execBuyMatches instr buy (best :: rest) =
      ({ buy with amount := buy.amount - min buy.amount best.amount },
       { best with amount := best.amount - min buy.amount best.amount } :: rest,
       [({ buy_order_id := buy.id, sell_order_id := best.id, instrument := instr,
           price := best.priceQ, amount := min buy.amount best.amount } : Trade)]) := by
  simp only [execBuyMatches]
  rw [if_neg h, if_neg h2]
  simp only [if_neg h3]

/-- Matching never changes any field of the incoming order other than its
amount. -/
theorem execBuy_fields (instr : Instrument) (buy : Order) (asks : List Order) :
    (execBuyMatches instr buy asks).1.id = buy.id ∧
    (execBuyMatches instr buy asks).1.order_type = buy.order_type ∧
    (execBuyMatches instr buy asks).1.price = buy.price ∧
    (execBuyMatches instr buy asks).1.instrument = buy.instrument ∧
    (execBuyMatches instr buy asks).1.side = buy.side ∧
    (execBuyMatches instr buy asks).1.counterpart_id = buy.counterpart_id := by
  induction asks generalizing buy with
  | nil => simp [execBuyMatches]
  | cons best rest ih =>
    by_cases h : buy.amount ≤ 0
    · rw [execBuy_stop instr buy best rest h]
      exact ⟨rfl, rfl, rfl, rfl, rfl, rfl⟩
    by_cases h2 : buy.order_type = OrderType.LIMIT ∧
        buy.priceQ < best.priceQ - ERROR_TOLERANCE
    · rw [execBuy_break instr buy best rest h h2]
      exact ⟨rfl, rfl, rfl, rfl, rfl, rfl⟩
    by_cases h3 : best.amount - min buy.amount best.amount = 0
    · rw [execBuy_pop instr buy best rest h h2 h3]
      exact ih _
    · rw [execBuy_partfill instr buy best rest h h2 h3]
      exact ⟨rfl, rfl, rfl, rfl, rfl, rfl⟩

/-- The incoming order's amount never becomes negative during matching. -/
theorem execBuy_amount_nonneg (instr : Instrument) (buy : Order)
    (asks : List Order) (h0 : 0 ≤ buy.amount) :
    0 ≤ (execBuyMatches instr buy asks).1.amount := by
  induction asks generalizing buy with
  | nil => simpa [execBuyMatches] using h0
  | cons best rest ih =>
    by_cases h : buy.amount ≤ 0
    · rw [execBuy_stop instr buy best rest h]; exact h0
    by_cases h2 : buy.order_type = OrderType.LIMIT ∧
        buy.priceQ < best.priceQ - ERROR_TOLERANCE
    · rw [execBuy_break instr buy best rest h h2]; exact h0
    by_cases h3 : best.amount - min buy.amount best.amount = 0
    · rw [execBuy_pop instr buy best rest h h2 h3]
      exact ih _ (by show (0:ℤ) ≤ buy.amount - min buy.amount best.amount; omega)
    · rw [execBuy_partfill instr buy best rest h h2 h3]
      show (0:ℤ) ≤ buy.amount - min buy.amount best.amount
      omega

/-- Conservation identity of a matching pass: the total traded amount is
exactly the decrease of the incoming order's amount. -/
theorem execBuy_sum_eq (instr : Instrument) (buy : Order) (asks : List Order) :
    sumTradeAmounts (execBuyMatches instr buy asks).2.2 =
      buy.amount - (execBuyMatches instr buy asks).1.amount := by
  induction asks generalizing buy with
  | nil => simp [execBuyMatches, sumTradeAmounts]
  | cons best rest ih =>
    by_cases h : buy.amount ≤ 0
    · rw [execBuy_stop instr buy best rest h]; simp [sumTradeAmounts]
    by_cases h2 : buy.order_type = OrderType.LIMIT ∧
        buy.priceQ < best.priceQ - ERROR_TOLERANCE
    · rw [execBuy_break instr buy best rest h h2]; simp [sumTradeAmounts]
    by_cases h3 : best.amount - min buy.amount best.amount = 0
    · rw [execBuy_pop instr buy best rest h h2 h3]
      have := ih ({ buy with amount := buy.amount - min buy.amount best.amount })
      simp only [sumTradeAmounts, List.map_cons, List.sum_cons] at this ⊢
      omega
    · rw [execBuy_partfill instr buy best rest h h2 h3]
      simp [sumTradeAmounts]

/-- Every prefix of the emitted trade list sums to at most the incoming
order's amount at the start of the pass. -/
theorem execBuy_take_sum (instr : Instrument) (buy : Order) (asks : List Order)
    (h0 : 0 ≤ buy.amount) (k : ℕ) :
    sumTradeAmounts ((execBuyMatches instr buy asks).2.2.take k) ≤ buy.amount := by
  induction asks generalizing buy k with
  | nil => simp [execBuyMatches, sumTradeAmounts]; exact h0
  | cons best rest ih =>
    by_cases h : buy.amount ≤ 0
    · rw [execBuy_stop instr buy best rest h]; simp [sumTradeAmounts]; exact h0
    by_cases h2 : buy.order_type = OrderType.LIMIT ∧
        buy.priceQ < best.priceQ - ERROR_TOLERANCE
    · rw [execBuy_break instr buy best rest h h2]; simp [sumTradeAmounts]; exact h0
    by_cases h3 : best.amount - min buy.amount best.amount = 0
    · rw [execBuy_pop instr buy best rest h h2 h3]
      match k with
      | 0 => simpa [sumTradeAmounts] using h0
      | Nat.succ k =>
        have := ih ({ buy with amount := buy.amount - min buy.amount best.amount })
          (by show (0:ℤ) ≤ buy.amount - min buy.amount best.amount; omega) k
        simp only [List.take_succ_cons, sumTradeAmounts, List.map_cons,
          List.sum_cons] at this ⊢
        omega
    · rw [execBuy_partfill instr buy best rest h h2 h3]
      match k with
      | 0 => simpa [sumTradeAmounts] using h0
      | Nat.succ k => simp [sumTradeAmounts]

/-- Provenance of each emitted trade: it pairs the incoming order with a
resting ask, at the resting ask's price, for no more than the resting
ask's amount as it stood before the call. -/
theorem execBuy_trade_src (instr : Instrument) (buy : Order) (asks : List Order) :
    ∀ tr ∈ (execBuyMatches instr buy asks).2.2, ∃ a ∈ asks,
      tr.sell_order_id = a.id ∧ tr.price = a.priceQ ∧ tr.amount ≤ a.amount ∧
      tr.buy_order_id = buy.id ∧ tr.instrument = instr := by
  induction asks generalizing buy with
  | nil => simp [execBuyMatches]
  | cons best rest ih =>
    by_cases h : buy.amount ≤ 0
    · rw [execBuy_stop instr buy best rest h]; simp
    by_cases h2 : buy.order_type = OrderType.LIMIT ∧
        buy.priceQ < best.priceQ - ERROR_TOLERANCE
    · rw [execBuy_break instr buy best rest h h2]; simp
    by_cases h3 : best.amount - min buy.amount best.amount = 0
    · rw [execBuy_pop instr buy best rest h h2 h3]
      intro tr htr
      rcases List.mem_cons.mp htr with heq | hmem
      · exact ⟨best, List.mem_cons_self _ _,
          by simp [heq], by simp [heq], by simp [heq], by simp [heq],
          by simp [heq]⟩
      · rcases ih _ tr hmem with ⟨a, ha, p1, p2, p3, p4, p5⟩
        exact ⟨a, List.mem_cons_of_mem _ ha, p1, p2, p3, p4, p5⟩
    · rw [execBuy_partfill instr buy best rest h h2 h3]
      intro tr htr
      rcases List.mem_singleton.mp htr with heq
      exact ⟨best, List.mem_cons_self _ _,
        by simp [heq], by simp [heq], by simp [heq], by simp [heq],
        by simp [heq]⟩

/-- An incoming LIMIT buy never trades above its limit price plus the
tolerance. -/
theorem execBuy_limit_bound (instr : Instrument) (buy : Order)
    (asks : List Order) (hL : buy.order_type = OrderType.LIMIT) :
    ∀ tr ∈ (execBuyMatches instr buy asks).2.2,
      tr.price ≤ buy.priceQ + ERROR_TOLERANCE := by
  induction asks generalizing buy with
  | nil => simp [execBuyMatches]
  | cons best rest ih =>
    by_cases h : buy.amount ≤ 0
    · rw [execBuy_stop instr buy best rest h]; simp
    by_cases h2 : buy.order_type = OrderType.LIMIT ∧
        buy.priceQ < best.priceQ - ERROR_TOLERANCE
    · rw [execBuy_break instr buy best rest h h2]; simp
    have hp : best.priceQ ≤ buy.priceQ + ERROR_TOLERANCE := by
      by_contra hc
      exact h2 ⟨hL, by linarith [not_le.mp hc]⟩
    by_cases h3 : best.amount - min buy.amount best.amount = 0
    · rw [execBuy_pop instr buy best rest h h2 h3]
      intro tr htr
      rcases List.mem_cons.mp htr with heq | hmem
      · simpa [heq] using hp
      · simpa using
          ih { buy with amount := buy.amount - min buy.amount best.amount } hL tr hmem
    · rw [execBuy_partfill instr buy best rest h h2 h3]
      intro tr htr
      rcases List.mem_singleton.mp htr with heq
      simpa [heq] using hp

theorem sumAmounts_cons (o : Order) (l : List Order) :
    sumAmounts (o :: l) = o.amount + sumAmounts l := by
  simp [sumAmounts]

theorem sumAmounts_nonneg (l : List Order) (hpos : ∀ o ∈ l, 0 < o.amount) :
    0 ≤ sumAmounts l := by
  induction l with
  | nil => simp [sumAmounts]
  | cons o rest ih =>
    have h1 := hpos o (List.mem_cons_self _ _)
    have h2 := ih fun x hx => hpos x (List.mem_cons_of_mem _ hx)
    rw [sumAmounts_cons]
    omega

/-- The short-circuiting scan of `_has_sufficient_liquidity` agrees with
the total-sum comparison whenever all resting amounts are positive and
the target has not been reached yet. -/
theorem liquidityScan_iff (needed : ℤ) (l : List Order)
    (hpos : ∀ o ∈ l, 0 < o.amount) :
    ∀ acc, acc < needed →
      (liquidityScan needed acc l = true ↔ needed ≤ acc + sumAmounts l) := by
  induction l with
  | nil =>
    intro acc hacc
    simp only [liquidityScan]
    constructor
    · intro hfalse; cases hfalse
    · intro hle; exfalso; simp [sumAmounts] at hle; omega
  | cons o rest ih =>
    intro acc hacc
    simp only [liquidityScan]
    by_cases hc : needed ≤ acc + o.amount
    · have hrest := sumAmounts_nonneg rest
        fun x hx => hpos x (List.mem_cons_of_mem _ hx)
      simp only [if_pos hc, sumAmounts_cons]
      constructor
      · intro _; omega
      · intro _; trivial
    · rw [if_neg hc,
        ih (fun x hx => hpos x (List.mem_cons_of_mem _ hx)) _ (by omega),
        sumAmounts_cons]
      omega

/-- Frame property of the buy-side matching loop: resting asks only leave
from the front, and at most the new front order's amount is decreased
(staying positive). -/
theorem execBuy_suffix (instr : Instrument) (buy : Order) (asks : List Order)
    (hpos : ∀ a ∈ asks, 0 < a.amount) :
    SuffixMod (execBuyMatches instr buy asks).2.1 asks := by
  induction asks generalizing buy with
  | nil => exact ⟨0, Or.inl (by simp [execBuyMatches])⟩
  | cons best rest ih =>
    by_cases h : buy.amount ≤ 0
    · rw [execBuy_stop instr buy best rest h]
      exact ⟨0, Or.inl rfl⟩
    by_cases h2 : buy.order_type = OrderType.LIMIT ∧
        buy.priceQ < best.priceQ - ERROR_TOLERANCE
    · rw [execBuy_break instr buy best rest h h2]
      exact ⟨0, Or.inl rfl⟩
    by_cases h3 : best.amount - min buy.amount best.amount = 0
    · rw [execBuy_pop instr buy best rest h h2 h3]
      rcases ih { buy with amount := buy.amount - min buy.amount best.amount }
          (fun a ha => hpos a (List.mem_cons_of_mem _ ha)) with ⟨k, hk⟩
      exact ⟨k + 1, hk⟩
    · rw [execBuy_partfill instr buy best rest h h2 h3]
      have hb := hpos best (List.mem_cons_self _ _)
      refine ⟨0, Or.inr ⟨best, rest, best.amount - min buy.amount best.amount,
        rfl, ?_, ?_, rfl⟩⟩
      · omega
      · omega

/-- A MARKET buy covered by total resting ask liquidity is filled
completely by the matching loop. -/
theorem execBuy_market_fill (instr : Instrument) (buy : Order)
    (asks : List Order) (hM : buy.order_type = OrderType.MARKET)
    (h0 : 0 ≤ buy.amount) (hpos : ∀ a ∈ asks, 0 < a.amount)
    (hliq : buy.amount ≤ sumAmounts asks) :
    (execBuyMatches instr buy asks).1.amount = 0 := by
  induction asks generalizing buy with
  | nil =>
    simp [sumAmounts] at hliq
    simp [execBuyMatches]
    omega
  | cons best rest ih =>
    have h2 : ¬ (buy.order_type = OrderType.LIMIT ∧
        buy.priceQ < best.priceQ - ERROR_TOLERANCE) := by
      rintro ⟨hl, -⟩
      rw [hM] at hl
      cases hl
    by_cases h : buy.amount ≤ 0
    · rw [execBuy_stop instr buy best rest h]
      show buy.amount = 0
      omega
    rw [sumAmounts_cons] at hliq
    by_cases h3 : best.amount - min buy.amount best.amount = 0
    · rw [execBuy_pop instr buy best rest h h2 h3]
      refine ih { buy with amount := buy.amount - min buy.amount best.amount }
        hM ?_ (fun a ha => hpos a (List.mem_cons_of_mem _ ha)) ?_
      · show (0:ℤ) ≤ buy.amount - min buy.amount best.amount
        omega
      · show buy.amount - min buy.amount best.amount ≤ sumAmounts rest
        omega
    · rw [execBuy_partfill instr buy best rest h h2 h3]
      show buy.amount - min buy.amount best.amount = 0
      omega

theorem mem_insert_bid (o x : Order) (l : List Order) :
    x ∈ insert_bid o l ↔ x = o ∨ x ∈ l := by
  induction l with
  | nil => simp [insert_bid]
  | cons e rest ih =>
    by_cases hc : e.priceQ < o.priceQ
    · simp [insert_bid, hc]
    · simp [insert_bid, hc, ih]
      tauto

theorem mem_insert_ask (o x : Order) (l : List Order) :
    x ∈ insert_ask o l ↔ x = o ∨ x ∈ l := by
  induction l with
  | nil => simp [insert_ask]
  | cons e rest ih =>
    by_cases hc : o.priceQ < e.priceQ
    · simp [insert_ask, hc]
    · simp [insert_ask, hc, ih]
      tauto

theorem insert_bid_head (o : Order) (l : List Order) :
    (insert_bid o l).head? = some o ∨ (insert_bid o l).head? = l.head? := by
  cases l with
  | nil => exact Or.inl rfl
  | cons e rest =>
    by_cases hc : e.priceQ < o.priceQ
    · simp [insert_bid, hc]
    · simp [insert_bid, hc]

theorem insert_ask_head (o : Order) (l : List Order) :
    (insert_ask o l).head? = some o ∨ (insert_ask o l).head? = l.head? := by
  cases l with
  | nil => exact Or.inl rfl
  | cons e rest =>
    by_cases hc : o.priceQ < e.priceQ
    · simp [insert_ask, hc]
    · simp [insert_ask, hc]

theorem insert_bid_sorted (o : Order) (l : List Order) (h : sortedBids l) :
    sortedBids (insert_bid o l) := by
  induction l with
  | nil => simp [insert_bid, sortedBids]
  | cons e rest ih =>
    by_cases hc : e.priceQ < o.priceQ
    · simp only [insert_bid, if_pos hc]
      exact List.chain'_cons'.mpr
        ⟨fun y hy => by cases hy; exact le_of_lt hc, h⟩
    · simp only [insert_bid, if_neg hc]
      rcases List.chain'_cons'.mp h with ⟨hhead, htail⟩
      refine List.chain'_cons'.mpr ⟨?_, ih htail⟩
      intro y hy
      rcases insert_bid_head o rest with hh | hh
      · rw [hh] at hy
        cases hy
        exact not_lt.mp hc
      · rw [hh] at hy
        exact hhead y hy

theorem insert_ask_sorted (o : Order) (l : List Order) (h : sortedAsks l) :
    sortedAsks (insert_ask o l) := by
  induction l with
  | nil => simp [insert_ask, sortedAsks]
  | cons e rest ih =>
    by_cases hc : o.priceQ < e.priceQ
    · simp only [insert_ask, if_pos hc]
      exact List.chain'_cons'.mpr
        ⟨fun y hy => by cases hy; exact le_of_lt hc, h⟩
    · simp only [insert_ask, if_neg hc]
      rcases List.chain'_cons'.mp h with ⟨hhead, htail⟩
      refine List.chain'_cons'.mpr ⟨?_, ih htail⟩
      intro y hy
      rcases insert_ask_head o rest with hh | hh
      · rw [hh] at hy
        cases hy
        exact not_lt.mp hc
      · rw [hh] at hy
        exact hhead y hy

/-- FIFO placement of a new bid: it lands exactly after the maximal run of
resting bids whose price is not strictly lower — in particular after
every resting bid at the same price. -/
theorem insert_bid_fifo (o : Order) (l : List Order) :
    insert_bid o l =
      l.takeWhile (fun e => !decide (e.priceQ < o.priceQ)) ++
        o :: l.dropWhile (fun e => !decide (e.priceQ < o.priceQ)) := by
  induction l with
  | nil => simp [insert_bid]
  | cons e rest ih =>
    by_cases hc : e.priceQ < o.priceQ
    · simp [insert_bid, hc, List.takeWhile_cons, List.dropWhile_cons]
    · simp [insert_bid, hc, List.takeWhile_cons, List.dropWhile_cons, ih]

/-- FIFO placement of a new ask, symmetric to `insert_bid_fifo`. -/
theorem insert_ask_fifo (o : Order) (l : List Order) :
    insert_ask o l =
      l.takeWhile (fun e => !decide (o.priceQ < e.priceQ)) ++
        o :: l.dropWhile (fun e => !decide (o.priceQ < e.priceQ)) := by
  induction l with
  | nil => simp [insert_ask]
  | cons e rest ih =>
    by_cases hc : o.priceQ < e.priceQ
    · simp [insert_ask, hc, List.takeWhile_cons, List.dropWhile_cons]
    · simp [insert_ask, hc, List.takeWhile_cons, List.dropWhile_cons, ih]

theorem suffixMod_sorted_asks (l l2 : List Order) (h : sortedAsks l)
    (hs : SuffixMod l2 l) : sortedAsks l2 := by
  rcases hs with ⟨k, hk | ⟨hd, tl, a, hdrop, -, -, heq⟩⟩
  · rw [hk]
    exact List.Chain'.drop h k
  · have hc : sortedAsks (hd :: tl) := by
      rw [← hdrop]
      exact List.Chain'.drop h k
    rcases List.chain'_cons'.mp hc with ⟨hhead, htail⟩
    rw [heq]
    refine List.chain'_cons'.mpr ⟨?_, htail⟩
    intro y hy
    have := hhead y hy
    simpa [Order.priceQ] using this

theorem suffixMod_sorted_bids (l l2 : List Order) (h : sortedBids l)
    (hs : SuffixMod l2 l) : sortedBids l2 := by
  rcases hs with ⟨k, hk | ⟨hd, tl, a, hdrop, -, -, heq⟩⟩
  · rw [hk]
    exact List.Chain'.drop h k
  · have hc : sortedBids (hd :: tl) := by
      rw [← hdrop]
      exact List.Chain'.drop h k
    rcases List.chain'_cons'.mp hc with ⟨hhead, htail⟩
    rw [heq]
    refine List.chain'_cons'.mpr ⟨?_, htail⟩
    intro y hy
    have := hhead y hy
    simpa [Order.priceQ] using this

theorem suffixMod_resting (instr : Instrument) (l l2 : List Order)
    (hs : SuffixMod l2 l) (hv : ∀ x ∈ l, RestingValid instr x) :
    ∀ x ∈ l2, RestingValid instr x := by
  rcases hs with ⟨k, hk | ⟨hd, tl, a, hdrop, hpos, hle, heq⟩⟩
  · rw [hk]
    intro x hx
    exact hv x (List.drop_subset k l hx)
  · have hdsub : (hd :: tl) ⊆ l := by
      rw [← hdrop]
      exact List.drop_subset _ _
    intro x hx
    rw [heq] at hx
    rcases List.mem_cons.mp hx with rfl | hxl
    · rcases hv hd (hdsub (List.mem_cons_self _ _)) with ⟨-, h2, h3, h4⟩
      exact ⟨hpos, h2, h3, h4⟩
    · exact hv x (hdsub (List.mem_cons_of_mem _ hxl))

theorem execSell_stop (instr : Instrument) (sell best : Order)
    (rest : List Order) (h : sell.amount ≤ 0) :
    execSellMatches instr sell (best :: rest) = (sell, best :: rest, []) := by
  simp only [execSellMatches]
  rw [if_pos h]

theorem execSell_break (instr : Instrument) (sell best : Order)
    (rest : List Order) (h : ¬ sell.amount ≤ 0)
    (h2 : sell.order_type = OrderType.LIMIT ∧
      best.priceQ + ERROR_TOLERANCE < sell.priceQ) :
    execSellMatches instr sell (best :: rest) = (sell, best :: rest, []) := by
  simp only [execSellMatches]
  rw [if_neg h, if_pos h2]

theorem execSell_pop (instr : Instrument) (sell best : Order)
    (rest : List Order) (h : ¬ sell.amount ≤ 0)
    (h2 : ¬ (sell.order_type = OrderType.LIMIT ∧
      best.priceQ + ERROR_TOLERANCE < sell.priceQ))
    (h3 : best.amount - min sell.amount best.amount = 0) :
    execSellMatches instr sell (best :: rest) =
      ((execSellMatches instr
          { sell with amount := sell.amount - min sell.amount best.amount } rest).1,
       (execSellMatches instr
          { sell with amount := sell.amount - min sell.amount best.amount } rest).2.1,
       ({ buy_order_id := best.id, sell_order_id := sell.id, instrument := instr,
          price := best.priceQ, amount := min sell.amount best.amount } : Trade) ::
         (execSellMatches instr
          { sell with amount := sell.amount - min sell.amount best.amount } rest).2.2) := by
  simp only [execSellMatches]
  rw [if_neg h, if_neg h2]
  simp [h3]

theorem execSell_partfill (instr : Instrument) (sell best : Order)
    (rest : List Order) (h : ¬ sell.amount ≤ 0)
    (h2 : ¬ (sell.order_type = OrderType.LIMIT ∧
      best.priceQ + ERROR_TOLERANCE < sell.priceQ))
    (h3 : ¬ best.amount - min sell.amount best.amount = 0) :
    execSellMatches instr sell (best :: rest) =
      ({ sell with amount := sell.amount - min sell.amount best.amount },
       { best with amount := best.amount - min sell.amount best.amount } :: rest,
       [({ buy_order_id := best.id, sell_order_id := sell.id, instrument := instr,
           price := best.priceQ, amount := min sell.amount best.amount } : Trade)]) := by
  simp only [execSellMatches]
  rw [if_neg h, if_neg h2]
  simp only [if_neg h3]

/-- Matching never changes any field of the incoming sell order other
than its amount. -/
theorem execSell_fields (instr : Instrument) (sell : Order) (bids : List Order) :
    (execSellMatches instr sell bids).1.id = sell.id ∧
    (execSellMatches instr sell bids).1.order_type = sell.order_type ∧
    (execSellMatches instr sell bids).1.price = sell.price ∧
    (execSellMatches instr sell bids).1.instrument = sell.instrument ∧
    (execSellMatches instr sell bids).1.side = sell.side ∧
    (execSellMatches instr sell bids).1.counterpart_id = sell.counterpart_id := by
  induction bids generalizing sell with
  | nil => simp [execSellMatches]
  | cons best rest ih =>
    by_cases h : sell.amount ≤ 0
    · rw [execSell_stop instr sell best rest h]
      exact ⟨rfl, rfl, rfl, rfl, rfl, rfl⟩
    by_cases h2 : sell.order_type = OrderType.LIMIT ∧
        best.priceQ + ERROR_TOLERANCE < sell.priceQ
    · rw [execSell_break instr sell best rest h h2]
      exact ⟨rfl, rfl, rfl, rfl, rfl, rfl⟩
    by_cases h3 : best.amount - min sell.amount best.amount = 0
    · rw [execSell_pop instr sell best rest h h2 h3]
      exact ih _
    · rw [execSell_partfill instr sell best rest h h2 h3]
      exact ⟨rfl, rfl, rfl, rfl, rfl, rfl⟩

/-- The incoming sell order's amount never becomes negative during
matching. -/
theorem execSell_amount_nonneg (instr : Instrument) (sell : Order)
    (bids : List Order) (h0 : 0 ≤ sell.amount) :
    0 ≤ (execSellMatches instr sell bids).1.amount := by
  induction bids generalizing sell with
  | nil => simpa [execSellMatches] using h0
  | cons best rest ih =>
    by_cases h : sell.amount ≤ 0
    · rw [execSell_stop instr sell best rest h]; exact h0
    by_cases h2 : sell.order_type = OrderType.LIMIT ∧
        best.priceQ + ERROR_TOLERANCE < sell.priceQ
    · rw [execSell_break instr sell best rest h h2]; exact h0
    by_cases h3 : best.amount - min sell.amount best.amount = 0
    · rw [execSell_pop instr sell best rest h h2 h3]
      exact ih _ (by show (0:ℤ) ≤ sell.amount - min sell.amount best.amount; omega)
    · rw [execSell_partfill instr sell best rest h h2 h3]
      show (0:ℤ) ≤ sell.amount - min sell.amount best.amount
      omega

/-- Conservation identity of a sell-side matching pass. -/
theorem execSell_sum_eq (instr : Instrument) (sell : Order) (bids : List Order) :
    sumTradeAmounts (execSellMatches instr sell bids).2.2 =
      sell.amount - (execSellMatches instr sell bids).1.amount := by
  induction bids generalizing sell with
  | nil => simp [execSellMatches, sumTradeAmounts]
  | cons best rest ih =>
    by_cases h : sell.amount ≤ 0
    · rw [execSell_stop instr sell best rest h]; simp [sumTradeAmounts]
    by_cases h2 : sell.order_type = OrderType.LIMIT ∧
        best.priceQ + ERROR_TOLERANCE < sell.priceQ
    · rw [execSell_break instr sell best rest h h2]; simp [sumTradeAmounts]
    by_cases h3 : best.amount - min sell.amount best.amount = 0
    · rw [execSell_pop instr sell best rest h h2 h3]
      have := ih ({ sell with amount := sell.amount - min sell.amount best.amount })
      simp only [sumTradeAmounts, List.map_cons, List.sum_cons] at this ⊢
      omega
    · rw [execSell_partfill instr sell best rest h h2 h3]
      simp [sumTradeAmounts]

/-- Every prefix of the emitted trade list sums to at most the incoming
sell order's amount at the start of the pass. -/
theorem execSell_take_sum (instr : Instrument) (sell : Order)
    (bids : List Order) (h0 : 0 ≤ sell.amount) (k : ℕ) :
    sumTradeAmounts ((execSellMatches instr sell bids).2.2.take k) ≤
      sell.amount := by
  induction bids generalizing sell k with
  | nil => simp [execSellMatches, sumTradeAmounts]; exact h0
  | cons best rest ih =>
    by_cases h : sell.amount ≤ 0
    · rw [execSell_stop instr sell best rest h]; simp [sumTradeAmounts]; exact h0
    by_cases h2 : sell.order_type = OrderType.LIMIT ∧
        best.priceQ + ERROR_TOLERANCE < sell.priceQ
    · rw [execSell_break instr sell best rest h h2]; simp [sumTradeAmounts]
      exact h0
    by_cases h3 : best.amount - min sell.amount best.amount = 0
    · rw [execSell_pop instr sell best rest h h2 h3]
      match k with
      | 0 => simpa [sumTradeAmounts] using h0
      | Nat.succ k =>
        have := ih ({ sell with amount := sell.amount - min sell.amount best.amount })
          (by show (0:ℤ) ≤ sell.amount - min sell.amount best.amount; omega) k
        simp only [List.take_succ_cons, sumTradeAmounts, List.map_cons,
          List.sum_cons] at this ⊢
        omega
    · rw [execSell_partfill instr sell best rest h h2 h3]
      match k with
      | 0 => simpa [sumTradeAmounts] using h0
      | Nat.succ k => simp [sumTradeAmounts]

/-- Provenance of each emitted trade of a sell-side pass. -/
theorem execSell_trade_src (instr : Instrument) (sell : Order)
    (bids : List Order) :
    ∀ tr ∈ (execSellMatches instr sell bids).2.2, ∃ a ∈ bids,
      tr.buy_order_id = a.id ∧ tr.price = a.priceQ ∧ tr.amount ≤ a.amount ∧
      tr.sell_order_id = sell.id ∧ tr.instrument = instr := by
  induction bids generalizing sell with
  | nil => simp [execSellMatches]
  | cons best rest ih =>
    by_cases h : sell.amount ≤ 0
    · rw [execSell_stop instr sell best rest h]; simp
    by_cases h2 : sell.order_type = OrderType.LIMIT ∧
        best.priceQ + ERROR_TOLERANCE < sell.priceQ
    · rw [execSell_break instr sell best rest h h2]; simp
    by_cases h3 : best.amount - min sell.amount best.amount = 0
    · rw [execSell_pop instr sell best rest h h2 h3]
      intro tr htr
      rcases List.mem_cons.mp htr with heq | hmem
      · exact ⟨best, List.mem_cons_self _ _,
          by simp [heq], by simp [heq], by simp [heq], by simp [heq],
          by simp [heq]⟩
      · rcases ih _ tr hmem with ⟨a, ha, p1, p2, p3, p4, p5⟩
        exact ⟨a, List.mem_cons_of_mem _ ha, p1, p2, p3, p4, p5⟩
    · rw [execSell_partfill instr sell best rest h h2 h3]
      intro tr htr
      rcases List.mem_singleton.mp htr with heq
      exact ⟨best, List.mem_cons_self _ _,
        by simp [heq], by simp [heq], by simp [heq], by simp [heq],
        by simp [heq]⟩

/-- An incoming LIMIT sell never trades below its limit price minus the
tolerance. -/
theorem execSell_limit_bound (instr : Instrument) (sell : Order)
    (bids : List Order) (hL : sell.order_type = OrderType.LIMIT) :
    ∀ tr ∈ (execSellMatches instr sell bids).2.2,
      sell.priceQ - ERROR_TOLERANCE ≤ tr.price := by
  induction bids generalizing sell with
  | nil => simp [execSellMatches]
  | cons best rest ih =>
    by_cases h : sell.amount ≤ 0
    · rw [execSell_stop instr sell best rest h]; simp
    by_cases h2 : sell.order_type = OrderType.LIMIT ∧
        best.priceQ + ERROR_TOLERANCE < sell.priceQ
    · rw [execSell_break instr sell best rest h h2]; simp
    have hp : sell.priceQ - ERROR_TOLERANCE ≤ best.priceQ := by
      by_contra hc
      exact h2 ⟨hL, by linarith [not_le.mp hc]⟩
    by_cases h3 : best.amount - min sell.amount best.amount = 0
    · rw [execSell_pop instr sell best rest h h2 h3]
      intro tr htr
      rcases List.mem_cons.mp htr with heq | hmem
      · simpa [heq] using hp
      · simpa using
          ih { sell with amount := sell.amount - min sell.amount best.amount } hL tr hmem
    · rw [execSell_partfill instr sell best rest h h2 h3]
      intro tr htr
      rcases List.mem_singleton.mp htr with heq
      simpa [heq] using hp

/-- Frame property of the sell-side matching loop. -/
theorem execSell_suffix (instr : Instrument) (sell : Order) (bids : List Order)
    (hpos : ∀ a ∈ bids, 0 < a.amount) :
    SuffixMod (execSellMatches instr sell bids).2.1 bids := by
  induction bids generalizing sell with
  | nil => exact ⟨0, Or.inl (by simp [execSellMatches])⟩
  | cons best rest ih =>
    by_cases h : sell.amount ≤ 0
    · rw [execSell_stop instr sell best rest h]
      exact ⟨0, Or.inl rfl⟩
    by_cases h2 : sell.order_type = OrderType.LIMIT ∧
        best.priceQ + ERROR_TOLERANCE < sell.priceQ
    · rw [execSell_break instr sell best rest h h2]
      exact ⟨0, Or.inl rfl⟩
    by_cases h3 : best.amount - min sell.amount best.amount = 0
    · rw [execSell_pop instr sell best rest h h2 h3]
      rcases ih { sell with amount := sell.amount - min sell.amount best.amount }
          (fun a ha => hpos a (List.mem_cons_of_mem _ ha)) with ⟨k, hk⟩
      exact ⟨k + 1, hk⟩
    · rw [execSell_partfill instr sell best rest h h2 h3]
      have hb := hpos best (List.mem_cons_self _ _)
      refine ⟨0, Or.inr ⟨best, rest, best.amount - min sell.amount best.amount,
        rfl, ?_, ?_, rfl⟩⟩
      · omega
      · omega

/-- A MARKET sell covered by total resting bid liquidity is filled
completely by the matching loop. -/
theorem execSell_market_fill (instr : Instrument) (sell : Order)
    (bids : List Order) (hM : sell.order_type = OrderType.MARKET)
    (h0 : 0 ≤ sell.amount) (hpos : ∀ a ∈ bids, 0 < a.amount)
    (hliq : sell.amount ≤ sumAmounts bids) :
    (execSellMatches instr sell bids).1.amount = 0 := by
  induction bids generalizing sell with
  | nil =>
    simp [sumAmounts] at hliq
    simp [execSellMatches]
    omega
  | cons best rest ih =>
    have h2 : ¬ (sell.order_type = OrderType.LIMIT ∧
        best.priceQ + ERROR_TOLERANCE < sell.priceQ) := by
      rintro ⟨hl, -⟩
      rw [hM] at hl
      cases hl
    by_cases h : sell.amount ≤ 0
    · rw [execSell_stop instr sell best rest h]
      show sell.amount = 0
      omega
    rw [sumAmounts_cons] at hliq
    by_cases h3 : best.amount - min sell.amount best.amount = 0
    · rw [execSell_pop instr sell best rest h h2 h3]
      refine ih { sell with amount := sell.amount - min sell.amount best.amount }
        hM ?_ (fun a ha => hpos a (List.mem_cons_of_mem _ ha)) ?_
      · show (0:ℤ) ≤ sell.amount - min sell.amount best.amount
        omega
      · show sell.amount - min sell.amount best.amount ≤ sumAmounts rest
        omega
    · rw [execSell_partfill instr sell best rest h h2 h3]
      show sell.amount - min sell.amount best.amount = 0
      omega

/-- Successful `add_order` calls have a matching instrument and dispatch
to the side-specific matcher. -/
theorem add_order_ok (bk : OrderBook) (o : Order) (bk2 : OrderBook)
    (trs : List Trade) (h : add_order bk o = .ok (bk2, trs)) :
    o.instrument = bk.instrument ∧
      ((o.side = OrderSide.BUY ∧ matchBuyOrder bk o = (bk2, trs)) ∨
       (o.side = OrderSide.SELL ∧ matchSellOrder bk o = (bk2, trs))) := by
  unfold add_order at h
  by_cases h1 : o.instrument ≠ bk.instrument
  · rw [if_pos h1] at h
    cases h
  rw [if_neg h1] at h
  by_cases h2 : o.order_type = OrderType.LIMIT ∧
      ERROR_TOLERANCE < tickError bk.instrument.min_tick_size o.priceQ
  · rw [if_pos h2] at h
    cases h
  rw [if_neg h2] at h
  refine ⟨not_ne_iff.mp h1, ?_⟩
  cases hs : o.side
  · rw [hs] at h
    exact Or.inl ⟨rfl, by injection h⟩
  · rw [hs] at h
    exact Or.inr ⟨rfl, by injection h⟩

theorem matchBuyOrder_reject (bk : OrderBook) (buy : Order)
    (hM : buy.order_type = OrderType.MARKET)
    (hliq : bk.hasSufficientLiquidity buy OrderSide.BUY = false) :
    matchBuyOrder bk buy = (bk, []) := by
  simp [matchBuyOrder, hM, hliq]

theorem matchBuyOrder_go (bk : OrderBook) (buy : Order)
    (h : ¬ (buy.order_type = OrderType.MARKET ∧
      bk.hasSufficientLiquidity buy OrderSide.BUY = false)) :
    matchBuyOrder bk buy =
      ({ bk with
          bids := if 0 < (execBuyMatches bk.instrument buy bk.asks).1.amount ∧
              (execBuyMatches bk.instrument buy bk.asks).1.order_type =
                OrderType.LIMIT then
              insert_bid (execBuyMatches bk.instrument buy bk.asks).1 bk.bids
            else bk.bids,
          asks := (execBuyMatches bk.instrument buy bk.asks).2.1,
          trades := bk.trades ++ (execBuyMatches bk.instrument buy bk.asks).2.2 },
       (execBuyMatches bk.instrument buy bk.asks).2.2) := by
  simp only [matchBuyOrder, if_neg h]

theorem matchSellOrder_reject (bk : OrderBook) (sell : Order)
    (hM : sell.order_type = OrderType.MARKET)
    (hliq : bk.hasSufficientLiquidity sell OrderSide.SELL = false) :
    matchSellOrder bk sell = (bk, []) := by
  simp [matchSellOrder, hM, hliq]

theorem matchSellOrder_go (bk : OrderBook) (sell : Order)
    (h : ¬ (sell.order_type = OrderType.MARKET ∧
      bk.hasSufficientLiquidity sell OrderSide.SELL = false)) :
    matchSellOrder bk sell =
      ({ bk with
          bids := (execSellMatches bk.instrument sell bk.bids).2.1,
          asks := if 0 < (execSellMatches bk.instrument sell bk.bids).1.amount ∧
              (execSellMatches bk.instrument sell bk.bids).1.order_type =
                OrderType.LIMIT then
              insert_ask (execSellMatches bk.instrument sell bk.bids).1 bk.asks
            else bk.asks,
          trades := bk.trades ++ (execSellMatches bk.instrument sell bk.bids).2.2 },
       (execSellMatches bk.instrument sell bk.bids).2.2) := by
  simp only [matchSellOrder, if_neg h]

theorem pyRound_intCast (k : ℤ) : pyRound (k : ℚ) = k := by
  unfold pyRound
  rw [Int.floor_intCast]
  have h0 : (k : ℚ) - k = 0 := sub_self _
  rw [h0]
  norm_num

theorem pyRound_half (k : ℤ) :
    pyRound ((k : ℚ) + 1 / 2) = k ∨ pyRound ((k : ℚ) + 1 / 2) = k + 1 := by
  have h12 : ⌊(1 : ℚ) / 2⌋ = 0 := by norm_num
  have hf : ⌊(k : ℚ) + 1 / 2⌋ = k := by
    rw [Int.floor_int_add, h12, add_zero]
  unfold pyRound
  rw [hf]
  have hfr : (k : ℚ) + 1 / 2 - k = 1 / 2 := by ring
  rw [hfr]
  norm_num
  omega

theorem tickError_mult (t : ℚ) (k : ℤ) (ht : t ≠ 0) :
    tickError t ((t * k : ℚ)) = 0 := by
  unfold tickError
  have hdiv : t * (k : ℚ) / t = (k : ℚ) := by field_simp
  rw [hdiv, pyRound_intCast]
  simp [mul_comm]

theorem tickError_half (t : ℚ) (k : ℤ) (ht : 0 < t) :
    tickError t (t * k + t / 2) = t / 2 := by
  unfold tickError
  have hdiv : (t * (k : ℚ) + t / 2) / t = (k : ℚ) + 1 / 2 := by
    field_simp
    ring
  rw [hdiv]
  rcases pyRound_half k with hk | hk
  · rw [hk]
    rw [abs_of_nonpos (by ring_nf; linarith)]
    ring
  · rw [hk]
    rw [abs_of_nonneg (by push_cast; ring_nf; linarith)]
    push_cast
    ring

/-- Sample instrument used by concrete witness instances. -/
def instrSIM : Instrument :=
  { code := "SIM", name := "Simulated asset", is_active := true,
    min_tick_size := 1 / 100 }

/-- A second instrument, differing from `instrSIM`. -/
def instrALT : Instrument :=
  { code := "ALT", name := "Other asset", is_active := true,
    min_tick_size := 1 / 100 }

/-- Empty book over `instrSIM`, for witness instances. -/
def bkSIM : OrderBook := emptyBook instrSIM

/-- A LIMIT order whose instrument does not match `bkSIM`. -/
def oALT : Order :=
  { counterpart_id := 1000, instrument := instrALT,
    order_type := OrderType.LIMIT, side := OrderSide.BUY, amount := 1,
    price := some 100, id := 1, timestamp := 0 }

/-- A LIMIT order on `instrSIM` priced half a tick off the grid. -/
def oBadTick : Order :=
  { counterpart_id := 1001, instrument := instrSIM,
    order_type := OrderType.LIMIT, side := OrderSide.BUY, amount := 1,
    price := some (1 / 200), id := 2, timestamp := 0 }

/-- C3: `add_order` validates before any state mutation, in a fixed
order: a mismatched instrument fails with `InstrumentMismatchError`
regardless of the price (the first conjunct needs no price hypothesis,
which is exactly the claim that the instrument check runs first); with
matching instruments a LIMIT order off the tick grid beyond the
tolerance fails with `InvalidPriceError`; and any validation error
leaves the caller's book — bids, asks and the trades log — exactly as it
was (atomic rejection). -/
theorem add_order_validation (bk : OrderBook) (o : Order) :
    (o.instrument ≠ bk.instrument →
      add_order bk o = .error BookError.instrumentMismatch) ∧
    (o.instrument = bk.instrument → o.order_type = OrderType.LIMIT →
      ERROR_TOLERANCE < tickError bk.instrument.min_tick_size o.priceQ →
      add_order bk o = .error BookError.invalidPrice) ∧
    (∀ e, add_order bk o = .error e → applyOrder bk o = bk) := by
  refine ⟨?_, ?_, ?_⟩
  · intro h
    simp [add_order, h]
  · intro h1 h2 h3
    unfold add_order
    rw [if_neg (not_ne_iff.mpr h1), if_pos ⟨h2, h3⟩]
  · intro e he
    unfold applyOrder
    rw [he]

/-- Witness for C3: concrete rejected submissions on `bkSIM`. -/
theorem add_order_validation_witness :
    add_order bkSIM oALT = .error BookError.instrumentMismatch ∧
    add_order bkSIM oBadTick = .error BookError.invalidPrice ∧
    applyOrder bkSIM oALT = bkSIM := by
  have hne : oALT.instrument ≠ bkSIM.instrument := by
    simp [oALT, bkSIM, instrALT, instrSIM, emptyBook]
  refine ⟨?_, ?_, ?_⟩
  · exact (add_order_validation bkSIM oALT).1 hne
  · exact (add_order_validation bkSIM oBadTick).2.1 rfl rfl
      (by norm_num [bkSIM, emptyBook, instrSIM, oBadTick, Order.priceQ,
        tickError, pyRound, ERROR_TOLERANCE, abs_of_pos])
  · exact (add_order_validation bkSIM oALT).2.2 _
      ((add_order_validation bkSIM oALT).1 hne)

/-- C6 (amended): when the tick size exceeds twice the tolerance, a LIMIT
order priced at `tick * k + tick / 2` is rejected by `add_order` with
`InvalidPriceError`; a price `tick * k` always passes validation for a
positive tick; and the accepted set is exactly the set of prices whose
distance to the rounded tick multiple is at most the 1e-9 tolerance.
(The unamended claim, quantifying over every positive tick size, fails
for tick sizes at most `2e-9` — see the counterexample.) -/
theorem tick_size_boundary :
    (∀ (bk : OrderBook) (o : Order) (k : ℤ),
      o.instrument = bk.instrument → o.order_type = OrderType.LIMIT →
      o.price = some (bk.instrument.min_tick_size * k +
        bk.instrument.min_tick_size / 2) →
      0 < bk.instrument.min_tick_size →
      2 * ERROR_TOLERANCE < bk.instrument.min_tick_size →
      add_order bk o = .error BookError.invalidPrice) ∧
    (∀ (t : ℚ) (k : ℤ), 0 < t → validLimitPrice t (t * k) = true) ∧
    (∀ t p : ℚ, validLimitPrice t p = true ↔
      |(pyRound (p / t) : ℚ) * t - p| ≤ ERROR_TOLERANCE) := by
  refine ⟨?_, ?_, ?_⟩
  · intro bk o k h1 h2 hp ht h2t
    have hpq : o.priceQ = bk.instrument.min_tick_size * k +
        bk.instrument.min_tick_size / 2 := by
      simp [Order.priceQ, hp]
    have herr : tickError bk.instrument.min_tick_size o.priceQ =
        bk.instrument.min_tick_size / 2 := by
      rw [hpq]
      exact tickError_half _ _ ht
    unfold add_order
    rw [if_neg (not_ne_iff.mpr h1), if_pos ⟨h2, by rw [herr]; linarith⟩]
  · intro t k ht
    unfold validLimitPrice
    rw [tickError_mult t k ht.ne']
    norm_num [ERROR_TOLERANCE]
  · intro t p
    simp [validLimitPrice, tickError]

/-- Witness for C6: a half-tick price on `instrSIM` (tick 0.01) is
rejected, and a grid price passes validation. -/
theorem tick_size_boundary_witness :
    add_order bkSIM oBadTick = .error BookError.invalidPrice ∧
    validLimitPrice instrSIM.min_tick_size
      (instrSIM.min_tick_size * ((0:ℤ) : ℚ)) = true := by
  constructor
  · exact tick_size_boundary.1 bkSIM oBadTick 0 rfl rfl
      (by norm_num [oBadTick, bkSIM, emptyBook, instrSIM])
      (by norm_num [bkSIM, emptyBook, instrSIM])
      (by norm_num [bkSIM, emptyBook, instrSIM, ERROR_TOLERANCE])
  · exact tick_size_boundary.2.1 instrSIM.min_tick_size 0
      (by norm_num [instrSIM])

/-- Instrument whose tick size `2e-9` is at most twice the tolerance. -/
def tinyInstr : Instrument :=
  { code := "TINY", name := "Tiny tick asset", is_active := true,
    min_tick_size := 2 / 1000000000 }

/-- A LIMIT order on `tinyInstr` priced at half a tick (`1e-9`). -/
def tinyHalfOrder : Order :=
  { counterpart_id := 1002, instrument := tinyInstr,
    order_type := OrderType.LIMIT, side := OrderSide.BUY, amount := 1,
    price := some (1 / 1000000000), id := 3, timestamp := 0 }

/-- Counterexample to C6 as stated: for the positive tick size `2e-9`
and `k = 0`, the half-tick price `1e-9` is accepted by `add_order`
(the tick error equals the tolerance, so no `InvalidPriceError` is
raised), contradicting the claim's demand that every positive tick size
rejects half-tick prices. -/
theorem tick_size_boundary_counterexample :
    tinyHalfOrder.price = some (tinyInstr.min_tick_size * ((0:ℤ) : ℚ) +
      tinyInstr.min_tick_size / 2) ∧
    0 < tinyInstr.min_tick_size ∧
    add_order (emptyBook tinyInstr) tinyHalfOrder ≠
      Except.error BookError.invalidPrice := by
  have ht : (0:ℚ) < tinyInstr.min_tick_size := by norm_num [tinyInstr]
  have hpq : tinyHalfOrder.priceQ = tinyInstr.min_tick_size * ((0:ℤ) : ℚ) +
      tinyInstr.min_tick_size / 2 := by
    norm_num [tinyHalfOrder, Order.priceQ, tinyInstr]
  have herr : tickError (emptyBook tinyInstr).instrument.min_tick_size
      tinyHalfOrder.priceQ = tinyInstr.min_tick_size / 2 := by
    rw [show (emptyBook tinyInstr).instrument = tinyInstr from rfl, hpq]
    exact tickError_half _ _ ht
  refine ⟨by norm_num [tinyHalfOrder, tinyInstr], ht, ?_⟩
  have hc : ¬ (tinyHalfOrder.order_type = OrderType.LIMIT ∧
      ERROR_TOLERANCE < tickError (emptyBook tinyInstr).instrument.min_tick_size
        tinyHalfOrder.priceQ) := by
    rintro ⟨-, hlt⟩
    rw [herr] at hlt
    norm_num [tinyInstr, ERROR_TOLERANCE] at hlt
  have hinst : ¬ (tinyHalfOrder.instrument ≠ (emptyBook tinyInstr).instrument) :=
    not_ne_iff.mpr rfl
  unfold add_order
  rw [if_neg hinst, if_neg hc]
  simp [tinyHalfOrder]

theorem execBuy_nil (instr : Instrument) (buy : Order) :
    execBuyMatches instr buy [] = (buy, [], []) := by
  simp [execBuyMatches]

theorem execSell_nil (instr : Instrument) (sell : Order) :
    execSellMatches instr sell [] = (sell, [], []) := by
  simp [execSellMatches]

/-- C4: every trade emitted by `add_order` carries the price (and id) of a
resting order of the opposite queue as it stood at the call — the resting
side sets the price — and an incoming LIMIT order never trades at a price
worse than its limit: for a LIMIT BUY every trade price is at most the
order price plus 1e-9, for a LIMIT SELL at least the order price minus
1e-9.  (Resting prices are never mutated, so membership in the pre-call
queue determines the price at the moment of the match.) -/
theorem trade_price_from_resting (bk : OrderBook) (o : Order)
    (bk2 : OrderBook) (trs : List Trade)
    (h : add_order bk o = .ok (bk2, trs)) :
    (∀ tr ∈ trs,
      (o.side = OrderSide.BUY → ∃ r ∈ bk.asks,
        tr.price = r.priceQ ∧ tr.sell_order_id = r.id) ∧
      (o.side = OrderSide.SELL → ∃ r ∈ bk.bids,
        tr.price = r.priceQ ∧ tr.buy_order_id = r.id)) ∧
    (o.order_type = OrderType.LIMIT → ∀ tr ∈ trs,
      (o.side = OrderSide.BUY → tr.price ≤ o.priceQ + ERROR_TOLERANCE) ∧
      (o.side = OrderSide.SELL → o.priceQ - ERROR_TOLERANCE ≤ tr.price)) := by
  rcases add_order_ok bk o bk2 trs h with ⟨-, ⟨hbuy, hmb⟩ | ⟨hsell, hms⟩⟩
  · by_cases hrej : o.order_type = OrderType.MARKET ∧
        bk.hasSufficientLiquidity o OrderSide.BUY = false
    · rw [matchBuyOrder_reject bk o hrej.1 hrej.2] at hmb
      injection hmb with h1 h2
      subst h2
      exact ⟨fun tr htr => absurd htr (List.not_mem_nil tr),
        fun _ tr htr => absurd htr (List.not_mem_nil tr)⟩
    · rw [matchBuyOrder_go bk o hrej] at hmb
      injection hmb with h1 h2
      subst h2
      constructor
      · intro tr htr
        rcases execBuy_trade_src bk.instrument o bk.asks tr htr with
          ⟨a, ha, p1, p2, -, -, -⟩
        constructor
        · intro _
          exact ⟨a, ha, p2, p1⟩
        · intro hs
          rw [hbuy] at hs
          cases hs
      · intro hL tr htr
        constructor
        · intro _
          exact execBuy_limit_bound bk.instrument o bk.asks hL tr htr
        · intro hs
          rw [hbuy] at hs
          cases hs
  · by_cases hrej : o.order_type = OrderType.MARKET ∧
        bk.hasSufficientLiquidity o OrderSide.SELL = false
    · rw [matchSellOrder_reject bk o hrej.1 hrej.2] at hms
      injection hms with h1 h2
      subst h2
      exact ⟨fun tr htr => absurd htr (List.not_mem_nil tr),
        fun _ tr htr => absurd htr (List.not_mem_nil tr)⟩
    · rw [matchSellOrder_go bk o hrej] at hms
      injection hms with h1 h2
      subst h2
      constructor
      · intro tr htr
        rcases execSell_trade_src bk.instrument o bk.bids tr htr with
          ⟨a, ha, p1, p2, -, -, -⟩
        constructor
        · intro hs
          rw [hsell] at hs
          cases hs
        · intro _
          exact ⟨a, ha, p2, p1⟩
      · intro hL tr htr
        constructor
        · intro hs
          rw [hsell] at hs
          cases hs
        · intro _
          exact execSell_limit_bound bk.instrument o bk.bids hL tr htr

/-- Book with one resting ask, used by several concrete witnesses. -/
def restingAsk : Order :=
  { counterpart_id := 1003, instrument := instrSIM,
    order_type := OrderType.LIMIT, side := OrderSide.SELL, amount := 5,
    price := some 100, id := 21, timestamp := 0 }

/-- Book over `instrSIM` holding only `restingAsk`. -/
def bkAsk : OrderBook :=
  { instrument := instrSIM, bids := [], asks := [restingAsk], trades := [] }

/-- An aggressive LIMIT BUY that crosses `restingAsk`. -/
def oBuyCross : Order :=
  { counterpart_id := 1004, instrument := instrSIM,
    order_type := OrderType.LIMIT, side := OrderSide.BUY, amount := 3,
    price := some 101, id := 22, timestamp := 0 }

/-- The single trade generated when `oBuyCross` hits `bkAsk`. -/
def trW : Trade :=
  { buy_order_id := 22, sell_order_id := 21, instrument := instrSIM,
    price := 100, amount := 3 }

/-- The book state after `oBuyCross` hits `bkAsk`. -/
def bk2W : OrderBook :=
  { instrument := instrSIM, bids := [],
    asks := [{ restingAsk with amount := 2 }], trades := [trW] }

/-- Concrete evaluation: submitting `oBuyCross` into `bkAsk` produces
exactly one trade of amount 3 at the resting price 100, leaving a
partially filled ask of amount 2. -/
theorem addOrder_bkAsk_oBuyCross :
    add_order bkAsk oBuyCross = .ok (bk2W, [trW]) := by
  have hinst : ¬ (oBuyCross.instrument ≠ bkAsk.instrument) := not_ne_iff.mpr rfl
  have hlim : ¬ (oBuyCross.order_type = OrderType.LIMIT ∧
      ERROR_TOLERANCE < tickError bkAsk.instrument.min_tick_size
        oBuyCross.priceQ) := by
    rintro ⟨-, hlt⟩
    norm_num [bkAsk, instrSIM, oBuyCross, Order.priceQ, tickError, pyRound,
      ERROR_TOLERANCE] at hlt
  have hE : execBuyMatches bkAsk.instrument oBuyCross bkAsk.asks =
      ({ oBuyCross with amount := (oBuyCross.amount -
          min oBuyCross.amount restingAsk.amount) },
       { restingAsk with amount := (restingAsk.amount -
          min oBuyCross.amount restingAsk.amount) } :: [],
       [({ buy_order_id := oBuyCross.id, sell_order_id := restingAsk.id,
           instrument := bkAsk.instrument, price := restingAsk.priceQ,
           amount := min oBuyCross.amount restingAsk.amount } : Trade)]) := by
    show execBuyMatches bkAsk.instrument oBuyCross (restingAsk :: []) = _
    refine execBuy_partfill bkAsk.instrument oBuyCross restingAsk [] ?_ ?_ ?_
    · decide
    · rintro ⟨-, hlt⟩
      norm_num [oBuyCross, restingAsk, Order.priceQ, ERROR_TOLERANCE] at hlt
    · decide
  unfold add_order
  rw [if_neg hinst, if_neg hlim]
  show Except.ok (matchBuyOrder bkAsk oBuyCross) = _
  rw [matchBuyOrder_go bkAsk oBuyCross (by rintro ⟨hm, -⟩; cases hm), hE]
  rfl

/-- Witness for C4: in the `bkAsk`/`oBuyCross` scenario the emitted trade
is priced by the resting ask and stays within the buyer's limit. -/
theorem trade_price_from_resting_witness :
    (∃ r ∈ bkAsk.asks, trW.price = r.priceQ ∧ trW.sell_order_id = r.id) ∧
    trW.price ≤ oBuyCross.priceQ + ERROR_TOLERANCE := by
  have happ := trade_price_from_resting bkAsk oBuyCross bk2W [trW]
    addOrder_bkAsk_oBuyCross
  exact ⟨(happ.1 trW (List.mem_singleton_self _)).1 rfl,
    (happ.2 rfl trW (List.mem_singleton_self _)).1 rfl⟩

/-- C5: conservation of amounts in one `add_order` call.  Every prefix
sum of the emitted trade amounts is at most the incoming order's amount
at the start of the call — this is exactly the statement that each trade
is bounded by the incoming order's amount immediately before its match
(the amount before match `i` is the original amount minus the sum of the
first `i` trades) and, at `k = trs.length`, that the total matched amount
never exceeds the original amount.  Each trade is also bounded by the
matched resting order's amount as it stood before the call; a resting
order participates in at most one trade per call, so that is its amount
immediately before the match. -/
theorem amount_conservation (bk : OrderBook) (o : Order) (bk2 : OrderBook)
    (trs : List Trade) (h : add_order bk o = .ok (bk2, trs))
    (h0 : 0 ≤ o.amount) :
    (∀ k, sumTradeAmounts (trs.take k) ≤ o.amount) ∧
    (∀ tr ∈ trs,
      (o.side = OrderSide.BUY → ∃ r ∈ bk.asks,
        tr.sell_order_id = r.id ∧ tr.amount ≤ r.amount) ∧
      (o.side = OrderSide.SELL → ∃ r ∈ bk.bids,
        tr.buy_order_id = r.id ∧ tr.amount ≤ r.amount)) := by
  rcases add_order_ok bk o bk2 trs h with ⟨-, ⟨hbuy, hmb⟩ | ⟨hsell, hms⟩⟩
  · by_cases hrej : o.order_type = OrderType.MARKET ∧
        bk.hasSufficientLiquidity o OrderSide.BUY = false
    · rw [matchBuyOrder_reject bk o hrej.1 hrej.2] at hmb
      injection hmb with h1 h2
      subst h2
      exact ⟨fun k => by simpa [sumTradeAmounts] using h0,
        fun tr htr => absurd htr (List.not_mem_nil tr)⟩
    · rw [matchBuyOrder_go bk o hrej] at hmb
      injection hmb with h1 h2
      subst h2
      constructor
      · intro k
        exact execBuy_take_sum bk.instrument o bk.asks h0 k
      · intro tr htr
        rcases execBuy_trade_src bk.instrument o bk.asks tr htr with
          ⟨a, ha, p1, -, p3, -, -⟩
        refine ⟨fun _ => ⟨a, ha, p1, p3⟩, fun hs => ?_⟩
        rw [hbuy] at hs
        cases hs
  · by_cases hrej : o.order_type = OrderType.MARKET ∧
        bk.hasSufficientLiquidity o OrderSide.SELL = false
    · rw [matchSellOrder_reject bk o hrej.1 hrej.2] at hms
      injection hms with h1 h2
      subst h2
      exact ⟨fun k => by simpa [sumTradeAmounts] using h0,
        fun tr htr => absurd htr (List.not_mem_nil tr)⟩
    · rw [matchSellOrder_go bk o hrej] at hms
      injection hms with h1 h2
      subst h2
      constructor
      · intro k
        exact execSell_take_sum bk.instrument o bk.bids h0 k
      · intro tr htr
        rcases execSell_trade_src bk.instrument o bk.bids tr htr with
          ⟨a, ha, p1, -, p3, -, -⟩
        refine ⟨fun hs => ?_, fun _ => ⟨a, ha, p1, p3⟩⟩
        rw [hsell] at hs
        cases hs

/-- Witness for C5: in the `bkAsk`/`oBuyCross` scenario the prefix sums
of the trade amounts are bounded by the incoming amount and the trade is
bounded by the resting ask's amount. -/
theorem amount_conservation_witness :
    (∀ k, sumTradeAmounts (([trW] : List Trade).take k) ≤ oBuyCross.amount) ∧
    (∃ r ∈ bkAsk.asks, trW.sell_order_id = r.id ∧ trW.amount ≤ r.amount) := by
  have happ := amount_conservation bkAsk oBuyCross bk2W [trW]
    addOrder_bkAsk_oBuyCross (by decide)
  exact ⟨happ.1, (happ.2 trW (List.mem_singleton_self _)).1 rfl⟩

/-- C10: frame property of matching.  For a BUY order accepted by
`add_order`, nothing is ever inserted into `asks` and nothing is removed
from `bids`: the resulting ask queue is a suffix of the prior one with at
most the new front order's amount decreased (`SuffixMod`), the bid queue
changes at most by inserting the incoming LIMIT order's residual, and
the trade log only grows by the returned trades; symmetrically for a
SELL order with the two queues swapped. -/
theorem matching_frame (bk : OrderBook) (o : Order) (bk2 : OrderBook)
    (trs : List Trade)
    (hvb : ∀ x ∈ bk.bids, 0 < x.amount) (hva : ∀ x ∈ bk.asks, 0 < x.amount)
    (h : add_order bk o = .ok (bk2, trs)) :
    (o.side = OrderSide.BUY →
      SuffixMod bk2.asks bk.asks ∧
      (bk2.bids = bk.bids ∨ ∃ res : Order, res.id = o.id ∧
        res.order_type = OrderType.LIMIT ∧ res.price = o.price ∧
        0 < res.amount ∧ bk2.bids = insert_bid res bk.bids) ∧
      bk2.trades = bk.trades ++ trs) ∧
    (o.side = OrderSide.SELL →
      SuffixMod bk2.bids bk.bids ∧
      (bk2.asks = bk.asks ∨ ∃ res : Order, res.id = o.id ∧
        res.order_type = OrderType.LIMIT ∧ res.price = o.price ∧
        0 < res.amount ∧ bk2.asks = insert_ask res bk.asks) ∧
      bk2.trades = bk.trades ++ trs) := by
  rcases add_order_ok bk o bk2 trs h with ⟨-, ⟨hbuy, hmb⟩ | ⟨hsell, hms⟩⟩
  · refine ⟨fun _ => ?_, fun hs => by rw [hbuy] at hs; cases hs⟩
    by_cases hrej : o.order_type = OrderType.MARKET ∧
        bk.hasSufficientLiquidity o OrderSide.BUY = false
    · rw [matchBuyOrder_reject bk o hrej.1 hrej.2] at hmb
      injection hmb with h1 h2
      subst h1
      subst h2
      exact ⟨⟨0, Or.inl rfl⟩, Or.inl rfl, (List.append_nil _).symm⟩
    · rw [matchBuyOrder_go bk o hrej] at hmb
      injection hmb with h1 h2
      subst h1
      subst h2
      refine ⟨execBuy_suffix bk.instrument o bk.asks hva, ?_, rfl⟩
      by_cases hc : 0 < (execBuyMatches bk.instrument o bk.asks).1.amount ∧
          (execBuyMatches bk.instrument o bk.asks).1.order_type =
            OrderType.LIMIT
      · refine Or.inr ⟨(execBuyMatches bk.instrument o bk.asks).1,
          (execBuy_fields bk.instrument o bk.asks).1, hc.2,
          (execBuy_fields bk.instrument o bk.asks).2.2.1, hc.1, ?_⟩
        show (if 0 < (execBuyMatches bk.instrument o bk.asks).1.amount ∧
            (execBuyMatches bk.instrument o bk.asks).1.order_type =
              OrderType.LIMIT then
            insert_bid (execBuyMatches bk.instrument o bk.asks).1 bk.bids
          else bk.bids) = _
        rw [if_pos hc]
      · show (if 0 < (execBuyMatches bk.instrument o bk.asks).1.amount ∧
            (execBuyMatches bk.instrument o bk.asks).1.order_type =
              OrderType.LIMIT then
            insert_bid (execBuyMatches bk.instrument o bk.asks).1 bk.bids
          else bk.bids) = bk.bids ∨ _
        rw [if_neg hc]
        exact Or.inl rfl
  · refine ⟨fun hs => (by rw [hsell] at hs; cases hs), fun _ => ?_⟩
    by_cases hrej : o.order_type = OrderType.MARKET ∧
        bk.hasSufficientLiquidity o OrderSide.SELL = false
    · rw [matchSellOrder_reject bk o hrej.1 hrej.2] at hms
      injection hms with h1 h2
      subst h1
      subst h2
      exact ⟨⟨0, Or.inl rfl⟩, Or.inl rfl, (List.append_nil _).symm⟩
    · rw [matchSellOrder_go bk o hrej] at hms
      injection hms with h1 h2
      subst h1
      subst h2
      refine ⟨execSell_suffix bk.instrument o bk.bids hvb, ?_, rfl⟩
      by_cases hc : 0 < (execSellMatches bk.instrument o bk.bids).1.amount ∧
          (execSellMatches bk.instrument o bk.bids).1.order_type =
            OrderType.LIMIT
      · refine Or.inr ⟨(execSellMatches bk.instrument o bk.bids).1,
          (execSell_fields bk.instrument o bk.bids).1, hc.2,
          (execSell_fields bk.instrument o bk.bids).2.2.1, hc.1, ?_⟩
        show (if 0 < (execSellMatches bk.instrument o bk.bids).1.amount ∧
            (execSellMatches bk.instrument o bk.bids).1.order_type =
              OrderType.LIMIT then
            insert_ask (execSellMatches bk.instrument o bk.bids).1 bk.asks
          else bk.asks) = _
        rw [if_pos hc]
      · show (if 0 < (execSellMatches bk.instrument o bk.bids).1.amount ∧
            (execSellMatches bk.instrument o bk.bids).1.order_type =
              OrderType.LIMIT then
            insert_ask (execSellMatches bk.instrument o bk.bids).1 bk.asks
          else bk.asks) = bk.asks ∨ _
        rw [if_neg hc]
        exact Or.inl rfl

/-- Witness for C10: in the `bkAsk`/`oBuyCross` scenario the ask queue
ends as a decreased-front suffix of the prior one, the bid queue is
untouched, and the trade log grows by the returned trade. -/
theorem matching_frame_witness :
    SuffixMod bk2W.asks bkAsk.asks ∧
    (bk2W.bids = bkAsk.bids ∨ ∃ res : Order, res.id = oBuyCross.id ∧
      res.order_type = OrderType.LIMIT ∧ res.price = oBuyCross.price ∧
      0 < res.amount ∧ bk2W.bids = insert_bid res bkAsk.bids) ∧
    bk2W.trades = bkAsk.trades ++ [trW] := by
  have hva : ∀ x ∈ bkAsk.asks, 0 < x.amount := by
    intro x hx
    simp only [bkAsk, List.mem_singleton] at hx
    subst hx
    decide
  have happ := matching_frame bkAsk oBuyCross bk2W [trW]
    (fun x hx => absurd hx (List.not_mem_nil x)) hva addOrder_bkAsk_oBuyCross
  exact happ.1 rfl

/-- C1: all-or-nothing MARKET orders.  Submitting a valid MARKET order to
a book of valid resting LIMIT orders either finds total opposing
liquidity strictly below its amount — then `add_order` returns the
unchanged book with an empty trade list — or is filled completely: the
trade amounts sum to the order's amount, the order's final amount is 0,
and it is never queued (same-side queue unchanged, opposite queue only
consumed).  A MARKET order is never partially filled. -/
theorem market_all_or_nothing (bk : OrderBook) (o : Order)
    (hM : o.order_type = OrderType.MARKET)
    (hinstr : o.instrument = bk.instrument) (h0 : 0 < o.amount)
    (hva : ∀ x ∈ bk.asks, RestingValid bk.instrument x)
    (hvb : ∀ x ∈ bk.bids, RestingValid bk.instrument x) :
    (o.side = OrderSide.BUY →
      (sumAmounts bk.asks < o.amount → add_order bk o = .ok (bk, [])) ∧
      (o.amount ≤ sumAmounts bk.asks →
        ∃ bk2 trs, add_order bk o = .ok (bk2, trs) ∧
          sumTradeAmounts trs = o.amount ∧
          (execBuyMatches bk.instrument o bk.asks).1.amount = 0 ∧
          bk2.bids = bk.bids ∧ SuffixMod bk2.asks bk.asks ∧
          bk2.trades = bk.trades ++ trs)) ∧
    (o.side = OrderSide.SELL →
      (sumAmounts bk.bids < o.amount → add_order bk o = .ok (bk, [])) ∧
      (o.amount ≤ sumAmounts bk.bids →
        ∃ bk2 trs, add_order bk o = .ok (bk2, trs) ∧
          sumTradeAmounts trs = o.amount ∧
          (execSellMatches bk.instrument o bk.bids).1.amount = 0 ∧
          bk2.asks = bk.asks ∧ SuffixMod bk2.bids bk.bids ∧
          bk2.trades = bk.trades ++ trs)) := by
  have hnl : ¬ (o.order_type = OrderType.LIMIT ∧
      ERROR_TOLERANCE < tickError bk.instrument.min_tick_size o.priceQ) := by
    rintro ⟨hl, -⟩
    rw [hM] at hl
    cases hl
  have hposa : ∀ a ∈ bk.asks, 0 < a.amount := fun a ha => (hva a ha).1
  have hposb : ∀ a ∈ bk.bids, 0 < a.amount := fun a ha => (hvb a ha).1
  have hscana := liquidityScan_iff o.amount bk.asks hposa 0 h0
  have hscanb := liquidityScan_iff o.amount bk.bids hposb 0 h0
  constructor
  · intro hbuy
    have hadd : add_order bk o = .ok (matchBuyOrder bk o) := by
      unfold add_order
      rw [if_neg (not_ne_iff.mpr hinstr), if_neg hnl, hbuy]
    constructor
    · intro hlt
      have hfalse : bk.hasSufficientLiquidity o OrderSide.BUY = false := by
        unfold OrderBook.hasSufficientLiquidity
        cases hb : liquidityScan o.amount 0 bk.asks
        · rfl
        · have := hscana.mp hb
          omega
      rw [hadd, matchBuyOrder_reject bk o hM hfalse]
    · intro hge
      have htrue : bk.hasSufficientLiquidity o OrderSide.BUY = true := by
        unfold OrderBook.hasSufficientLiquidity
        exact hscana.mpr (by omega)
      have hgo : ¬ (o.order_type = OrderType.MARKET ∧
          bk.hasSufficientLiquidity o OrderSide.BUY = false) := by
        rintro ⟨-, hf⟩
        rw [htrue] at hf
        cases hf
      have hfill : (execBuyMatches bk.instrument o bk.asks).1.amount = 0 :=
        execBuy_market_fill bk.instrument o bk.asks hM h0.le hposa hge
      have hnoins : ¬ (0 < (execBuyMatches bk.instrument o bk.asks).1.amount ∧
          (execBuyMatches bk.instrument o bk.asks).1.order_type =
            OrderType.LIMIT) := by
        rintro ⟨hgt, -⟩
        omega
      refine ⟨_, _, by rw [hadd, matchBuyOrder_go bk o hgo], ?_, hfill, ?_,
        execBuy_suffix bk.instrument o bk.asks hposa, rfl⟩
      · rw [execBuy_sum_eq, hfill, sub_zero]
      · show (if 0 < (execBuyMatches bk.instrument o bk.asks).1.amount ∧
            (execBuyMatches bk.instrument o bk.asks).1.order_type =
              OrderType.LIMIT then
            insert_bid (execBuyMatches bk.instrument o bk.asks).1 bk.bids
          else bk.bids) = bk.bids
        rw [if_neg hnoins]
  · intro hsell
    have hadd : add_order bk o = .ok (matchSellOrder bk o) := by
      unfold add_order
      rw [if_neg (not_ne_iff.mpr hinstr), if_neg hnl, hsell]
    constructor
    · intro hlt
      have hfalse : bk.hasSufficientLiquidity o OrderSide.SELL = false := by
        unfold OrderBook.hasSufficientLiquidity
        cases hb : liquidityScan o.amount 0 bk.bids
        · rfl
        · have := hscanb.mp hb
          omega
      rw [hadd, matchSellOrder_reject bk o hM hfalse]
    · intro hge
      have htrue : bk.hasSufficientLiquidity o OrderSide.SELL = true := by
        unfold OrderBook.hasSufficientLiquidity
        exact hscanb.mpr (by omega)
      have hgo : ¬ (o.order_type = OrderType.MARKET ∧
          bk.hasSufficientLiquidity o OrderSide.SELL = false) := by
        rintro ⟨-, hf⟩
        rw [htrue] at hf
        cases hf
      have hfill : (execSellMatches bk.instrument o bk.bids).1.amount = 0 :=
        execSell_market_fill bk.instrument o bk.bids hM h0.le hposb hge
      have hnoins : ¬ (0 < (execSellMatches bk.instrument o bk.bids).1.amount ∧
          (execSellMatches bk.instrument o bk.bids).1.order_type =
            OrderType.LIMIT) := by
        rintro ⟨hgt, -⟩
        omega
      refine ⟨_, _, by rw [hadd, matchSellOrder_go bk o hgo], ?_, hfill, ?_,
        execSell_suffix bk.instrument o bk.bids hposb, rfl⟩
      · rw [execSell_sum_eq, hfill, sub_zero]
      · show (if 0 < (execSellMatches bk.instrument o bk.bids).1.amount ∧
            (execSellMatches bk.instrument o bk.bids).1.order_type =
              OrderType.LIMIT then
            insert_ask (execSellMatches bk.instrument o bk.bids).1 bk.asks
          else bk.asks) = bk.asks
        rw [if_neg hnoins]

/-- A MARKET BUY order covered by the liquidity of `bkAsk`. -/
def oMktBuy : Order :=
  { counterpart_id := 1005, instrument := instrSIM,
    order_type := OrderType.MARKET, side := OrderSide.BUY, amount := 3,
    price := none, id := 23, timestamp := 0 }

/-- Witness for C1: the MARKET BUY `oMktBuy` (amount 3) against `bkAsk`
(resting amount 5) is fully filled and never queued. -/
theorem market_all_or_nothing_witness :
    ∃ bk2 trs, add_order bkAsk oMktBuy = .ok (bk2, trs) ∧
      sumTradeAmounts trs = oMktBuy.amount ∧
      (execBuyMatches bkAsk.instrument oMktBuy bkAsk.asks).1.amount = 0 ∧
      bk2.bids = bkAsk.bids ∧ SuffixMod bk2.asks bkAsk.asks ∧
      bk2.trades = bkAsk.trades ++ trs := by
  have hva : ∀ x ∈ bkAsk.asks, RestingValid bkAsk.instrument x := by
    intro x hx
    simp only [bkAsk, List.mem_singleton] at hx
    subst hx
    exact ⟨by decide, rfl, rfl, rfl⟩
  have happ := market_all_or_nothing bkAsk oMktBuy rfl rfl (by decide) hva
    (fun x hx => absurd hx (List.not_mem_nil x))
  exact (happ.1 rfl).2 (by decide)

/-- One `add_order` call preserves the book invariant (errors leave the
book untouched). -/
theorem applyOrder_preserves_inv (bk : OrderBook) (o : Order)
    (hInv : BookInv bk) (hwf : WellFormedOrder o) :
    BookInv (applyOrder bk o) := by
  unfold applyOrder
  cases h : add_order bk o with
  | error e => exact hInv
  | ok r =>
    obtain ⟨bk2, trs⟩ := r
    rcases add_order_ok bk o bk2 trs h with ⟨hinstr, ⟨hbuy, hmb⟩ | ⟨hsell, hms⟩⟩
    · rcases hInv with ⟨hsb, hsa, hvb, hva⟩
      by_cases hrej : o.order_type = OrderType.MARKET ∧
          bk.hasSufficientLiquidity o OrderSide.BUY = false
      · rw [matchBuyOrder_reject bk o hrej.1 hrej.2] at hmb
        injection hmb with h1 h2
        rw [← h1]
        exact ⟨hsb, hsa, hvb, hva⟩
      · rw [matchBuyOrder_go bk o hrej] at hmb
        injection hmb with h1 h2
        rw [← h1]
        have hposa : ∀ a ∈ bk.asks, 0 < a.amount := fun a ha => (hva a ha).1
        have hsuf := execBuy_suffix bk.instrument o bk.asks hposa
        have hsa2 : sortedAsks (execBuyMatches bk.instrument o bk.asks).2.1 :=
          suffixMod_sorted_asks _ _ hsa hsuf
        have hva2 := suffixMod_resting bk.instrument _ _ hsuf hva
        by_cases hc : 0 < (execBuyMatches bk.instrument o bk.asks).1.amount ∧
            (execBuyMatches bk.instrument o bk.asks).1.order_type =
              OrderType.LIMIT
        · rw [if_pos hc]
          have hfields := execBuy_fields bk.instrument o bk.asks
          have hres : RestingValid bk.instrument
              (execBuyMatches bk.instrument o bk.asks).1 := by
            refine ⟨hc.1, hc.2, ?_, ?_⟩
            · rw [hfields.2.2.2.1, hinstr]
            · rw [hfields.2.2.1]
              exact hwf.2.mp (by rw [← hfields.2.1]; exact hc.2)
          refine ⟨insert_bid_sorted _ _ hsb, hsa2, ?_, hva2⟩
          intro x hx
          rcases (mem_insert_bid _ x bk.bids).mp hx with rfl | hxm
          · exact hres
          · exact hvb x hxm
        · rw [if_neg hc]
          exact ⟨hsb, hsa2, hvb, hva2⟩
    · rcases hInv with ⟨hsb, hsa, hvb, hva⟩
      by_cases hrej : o.order_type = OrderType.MARKET ∧
          bk.hasSufficientLiquidity o OrderSide.SELL = false
      · rw [matchSellOrder_reject bk o hrej.1 hrej.2] at hms
        injection hms with h1 h2
        rw [← h1]
        exact ⟨hsb, hsa, hvb, hva⟩
      · rw [matchSellOrder_go bk o hrej] at hms
        injection hms with h1 h2
        rw [← h1]
        have hposb : ∀ a ∈ bk.bids, 0 < a.amount := fun a ha => (hvb a ha).1
        have hsuf := execSell_suffix bk.instrument o bk.bids hposb
        have hsb2 : sortedBids (execSellMatches bk.instrument o bk.bids).2.1 :=
          suffixMod_sorted_bids _ _ hsb hsuf
        have hvb2 := suffixMod_resting bk.instrument _ _ hsuf hvb
        by_cases hc : 0 < (execSellMatches bk.instrument o bk.bids).1.amount ∧
            (execSellMatches bk.instrument o bk.bids).1.order_type =
              OrderType.LIMIT
        · rw [if_pos hc]
          have hfields := execSell_fields bk.instrument o bk.bids
          have hres : RestingValid bk.instrument
              (execSellMatches bk.instrument o bk.bids).1 := by
            refine ⟨hc.1, hc.2, ?_, ?_⟩
            · rw [hfields.2.2.2.1, hinstr]
            · rw [hfields.2.2.1]
              exact hwf.2.mp (by rw [← hfields.2.1]; exact hc.2)
          refine ⟨hsb2, insert_ask_sorted _ _ hsa, hvb2, ?_⟩
          intro x hx
          rcases (mem_insert_ask _ x bk.asks).mp hx with rfl | hxm
          · exact hres
          · exact hva x hxm
        · rw [if_neg hc]
          exact ⟨hsb2, hsa, hvb2, hva⟩

/-- Submitting any list of well-formed orders preserves the invariant. -/
theorem applyOrders_preserves_inv (l : List Order) (bk : OrderBook)
    (hInv : BookInv bk) (hwf : ∀ o ∈ l, WellFormedOrder o) :
    BookInv (applyOrders bk l) := by
  induction l generalizing bk with
  | nil => simpa [applyOrders] using hInv
  | cons o rest ih =>
    show BookInv (List.foldl applyOrder (applyOrder bk o) rest)
    exact ih (applyOrder bk o)
      (applyOrder_preserves_inv bk o hInv (hwf o (List.mem_cons_self _ _)))
      (fun x hx => hwf x (List.mem_cons_of_mem _ hx))

theorem emptyBook_inv (instr : Instrument) : BookInv (emptyBook instr) :=
  ⟨List.chain'_nil, List.chain'_nil,
    fun x hx => absurd hx (List.not_mem_nil x),
    fun x hx => absurd hx (List.not_mem_nil x)⟩

/-- C2: starting from an empty book and submitting any sequence of
well-formed orders through `add_order`, after every call the bid queue
is sorted by non-increasing price and the ask queue by non-decreasing
price, and every resting order has positive amount and LIMIT type (with
the book's instrument and a present price).  The FIFO tie-break is the
second and third conjunct: a newly resting order is placed exactly after
the maximal run of entries whose price is not strictly worse, hence
after every entry at an equal price, in both queues. -/
theorem book_invariant (instr : Instrument) (orders : List Order)
    (hwf : ∀ o ∈ orders, WellFormedOrder o) :
    (∀ k, BookInv (applyOrders (emptyBook instr) (orders.take k))) ∧
    (∀ (o : Order) (l : List Order), insert_bid o l =
      l.takeWhile (fun e => !decide (e.priceQ < o.priceQ)) ++
        o :: l.dropWhile (fun e => !decide (e.priceQ < o.priceQ))) ∧
    (∀ (o : Order) (l : List Order), insert_ask o l =
      l.takeWhile (fun e => !decide (o.priceQ < e.priceQ)) ++
        o :: l.dropWhile (fun e => !decide (o.priceQ < e.priceQ))) := by
  refine ⟨?_, insert_bid_fifo, insert_ask_fifo⟩
  intro k
  exact applyOrders_preserves_inv (orders.take k) (emptyBook instr)
    (emptyBook_inv instr) (fun x hx => hwf x (List.take_subset k orders hx))

/-- A well-formed LIMIT BUY used by the C2 witness. -/
def oLimBuyW : Order :=
  { counterpart_id := 1006, instrument := instrSIM,
    order_type := OrderType.LIMIT, side := OrderSide.BUY, amount := 2,
    price := some 100, id := 31, timestamp := 0 }

/-- A well-formed LIMIT SELL used by the C2 witness. -/
def oLimSellW : Order :=
  { counterpart_id := 1007, instrument := instrSIM,
    order_type := OrderType.LIMIT, side := OrderSide.SELL, amount := 2,
    price := some 101, id := 32, timestamp := 0 }

/-- Witness for C2: the invariant holds after submitting two concrete
well-formed orders into an empty `instrSIM` book. -/
theorem book_invariant_witness :
    BookInv (applyOrders (emptyBook instrSIM) ([oLimBuyW, oLimSellW].take 2)) :=
  (book_invariant instrSIM [oLimBuyW, oLimSellW] (by decide)).1 2

/-- Book holding a single resting bid (used to state the round-trip). -/
def singleBidBook (instr : Instrument) (bidO : Order) : OrderBook :=
  { instrument := instr, bids := [bidO], asks := [], trades := [] }

/-- The trade generated when `sellO` sweeps the single resting `bidO`. -/
def sweepTrade (instr : Instrument) (bidO sellO : Order) : Trade :=
  { buy_order_id := bidO.id, sell_order_id := sellO.id, instrument := instr,
    price := bidO.priceQ, amount := min sellO.amount bidO.amount }

/-- Book state after the round-trip: empty queues, one logged trade. -/
def sweptBook (instr : Instrument) (bidO sellO : Order) : OrderBook :=
  { instrument := instr, bids := [], asks := [],
    trades := [sweepTrade instr bidO sellO] }

/-- A resting-eligible LIMIT BUY submitted to an empty book rests alone
on the bid side and generates no trades. -/
theorem addOrder_limit_into_empty (instr : Instrument) (buyO : Order)
    (hinst : buyO.instrument = instr)
    (hty : buyO.order_type = OrderType.LIMIT) (hA : 0 < buyO.amount)
    (hP : ¬ ERROR_TOLERANCE < tickError instr.min_tick_size buyO.priceQ)
    (hside : buyO.side = OrderSide.BUY) :
    add_order (emptyBook instr) buyO = .ok (singleBidBook instr buyO, []) := by
  have hinst2 : ¬ (buyO.instrument ≠ (emptyBook instr).instrument) :=
    not_ne_iff.mpr hinst
  have hlim : ¬ (buyO.order_type = OrderType.LIMIT ∧ ERROR_TOLERANCE <
      tickError (emptyBook instr).instrument.min_tick_size buyO.priceQ) := by
    rintro ⟨-, hlt⟩
    exact hP hlt
  unfold add_order
  rw [if_neg hinst2, if_neg hlim, hside]
  show Except.ok (matchBuyOrder (emptyBook instr) buyO) = _
  have hmkt : ¬ (buyO.order_type = OrderType.MARKET ∧
      (emptyBook instr).hasSufficientLiquidity buyO OrderSide.BUY = false) := by
    rintro ⟨hm, -⟩
    rw [hty] at hm
    cases hm
  rw [matchBuyOrder_go _ _ hmkt]
  have hexec : execBuyMatches (emptyBook instr).instrument buyO
      (emptyBook instr).asks = (buyO, [], []) := execBuy_nil instr buyO
  rw [hexec]
  have hcond : 0 < ((buyO, ([] : List Order), ([] : List Trade))).1.amount ∧
      ((buyO, ([] : List Order), ([] : List Trade))).1.order_type =
        OrderType.LIMIT := ⟨hA, hty⟩
  rw [if_pos hcond]
  rfl

/-- A LIMIT SELL that crosses the single resting bid of a one-bid book
for the full amount sweeps the book: one trade at the resting bid's
price, both queues empty afterwards. -/
theorem addOrder_sell_sweeps_bid (instr : Instrument) (bidO sellO : Order)
    (hinst : sellO.instrument = instr)
    (hty : sellO.order_type = OrderType.LIMIT)
    (hside : sellO.side = OrderSide.SELL)
    (hamt : sellO.amount = bidO.amount) (hA : 0 < sellO.amount)
    (hQ : ¬ ERROR_TOLERANCE < tickError instr.min_tick_size sellO.priceQ)
    (hcross : ¬ bidO.priceQ + ERROR_TOLERANCE < sellO.priceQ) :
    add_order (singleBidBook instr bidO) sellO =
      .ok (sweptBook instr bidO sellO, [sweepTrade instr bidO sellO]) := by
  have hinst2 : ¬ (sellO.instrument ≠
      (singleBidBook instr bidO).instrument) := not_ne_iff.mpr hinst
  have hlim : ¬ (sellO.order_type = OrderType.LIMIT ∧ ERROR_TOLERANCE <
      tickError (singleBidBook instr bidO).instrument.min_tick_size
        sellO.priceQ) := by
    rintro ⟨-, hlt⟩
    exact hQ hlt
  unfold add_order
  rw [if_neg hinst2, if_neg hlim, hside]
  show Except.ok (matchSellOrder (singleBidBook instr bidO) sellO) = _
  have hmkt : ¬ (sellO.order_type = OrderType.MARKET ∧
      (singleBidBook instr bidO).hasSufficientLiquidity sellO
        OrderSide.SELL = false) := by
    rintro ⟨hm, -⟩
    rw [hty] at hm
    cases hm
  rw [matchSellOrder_go _ _ hmkt]
  have hp := execSell_pop instr sellO bidO []
    (by omega)
    (by rintro ⟨-, hlt⟩; exact hcross hlt)
    (by omega)
  rw [execSell_nil] at hp
  have hexec : execSellMatches (singleBidBook instr bidO).instrument sellO
      (singleBidBook instr bidO).bids =
      ({ sellO with amount := (sellO.amount -
         min sellO.amount bidO.amount) }, [],
       [sweepTrade instr bidO sellO]) := hp
  rw [hexec]
  have hnogo : ¬ (0 < (({ sellO with amount := (sellO.amount -
      min sellO.amount bidO.amount) } : Order), ([] : List Order),
        [sweepTrade instr bidO sellO]).1.amount ∧
      (({ sellO with amount := (sellO.amount -
      min sellO.amount bidO.amount) } : Order), ([] : List Order),
        [sweepTrade instr bidO sellO]).1.order_type =
        OrderType.LIMIT) := by
    rintro ⟨hgt, -⟩
    have h5 : (0:ℤ) < sellO.amount - min sellO.amount bidO.amount := hgt
    omega
  rw [if_neg hnogo]
  rfl

/-- C7: round-trip.  A LIMIT BUY at a tick-aligned price P with amount
A > 0 submitted to an empty book, followed by a LIMIT SELL at a
tick-aligned price Q ≤ P with the same amount, produces exactly one
trade, priced at the resting side's price P with amount A, and leaves
both queues empty. -/
theorem round_trip (instr : Instrument) (P Q : ℚ) (A idB idS cpB cpS : ℤ)
    (hA : 0 < A) (hQP : Q ≤ P)
    (hP : validLimitPrice instr.min_tick_size P = true)
    (hQ : validLimitPrice instr.min_tick_size Q = true) :
    ∃ bk1 bk2 tr,
      add_order (emptyBook instr)
        { counterpart_id := cpB, instrument := instr,
          order_type := OrderType.LIMIT, side := OrderSide.BUY,
          amount := A, price := some P, id := idB, timestamp := 0 } =
        .ok (bk1, []) ∧
      add_order bk1
        { counterpart_id := cpS, instrument := instr,
          order_type := OrderType.LIMIT, side := OrderSide.SELL,
          amount := A, price := some Q, id := idS, timestamp := 0 } =
        .ok (bk2, [tr]) ∧
      tr.price = P ∧ tr.amount = A ∧ bk2.bids = [] ∧ bk2.asks = [] := by
  have htol : (0:ℚ) < ERROR_TOLERANCE := by norm_num [ERROR_TOLERANCE]
  have hP2 : ¬ ERROR_TOLERANCE < tickError instr.min_tick_size P :=
    not_lt.mpr (by simpa [validLimitPrice] using hP)
  have hQ2 : ¬ ERROR_TOLERANCE < tickError instr.min_tick_size Q :=
    not_lt.mpr (by simpa [validLimitPrice] using hQ)
  have h1 := addOrder_limit_into_empty instr
    { counterpart_id := cpB, instrument := instr,
      order_type := OrderType.LIMIT, side := OrderSide.BUY,
      amount := A, price := some P, id := idB, timestamp := 0 }
    rfl rfl hA hP2 rfl
  have hcross : ¬ (P + ERROR_TOLERANCE < Q) := by
    intro hlt
    linarith
  have h2 := addOrder_sell_sweeps_bid instr
    { counterpart_id := cpB, instrument := instr,
      order_type := OrderType.LIMIT, side := OrderSide.BUY,
      amount := A, price := some P, id := idB, timestamp := 0 }
    { counterpart_id := cpS, instrument := instr,
      order_type := OrderType.LIMIT, side := OrderSide.SELL,
      amount := A, price := some Q, id := idS, timestamp := 0 }
    rfl rfl rfl rfl hA hQ2 hcross
  refine ⟨_, _, _, h1, h2, rfl, ?_, rfl, rfl⟩
  show min A A = A
  exact min_self A

/-- Witness for C7: a concrete round-trip on `instrSIM` with P = 100,
Q = 99.99, A = 7. -/
theorem round_trip_witness :
    ∃ bk1 bk2 tr,
      add_order (emptyBook instrSIM)
        { counterpart_id := 1008, instrument := instrSIM,
          order_type := OrderType.LIMIT, side := OrderSide.BUY,
          amount := 7, price := some 100, id := 41, timestamp := 0 } =
        .ok (bk1, []) ∧
      add_order bk1
        { counterpart_id := 1009, instrument := instrSIM,
          order_type := OrderType.LIMIT, side := OrderSide.SELL,
          amount := 7, price := some (9999 / 100), id := 42,
          timestamp := 0 } =
        .ok (bk2, [tr]) ∧
      tr.price = 100 ∧ tr.amount = 7 ∧ bk2.bids = [] ∧ bk2.asks = [] := by
  exact round_trip instrSIM 100 (9999 / 100) 7 41 42 1008 1009
    (by norm_num) (by norm_num)
    (by norm_num [validLimitPrice, tickError, pyRound, instrSIM,
      ERROR_TOLERANCE])
    (by norm_num [validLimitPrice, tickError, pyRound, instrSIM,
      ERROR_TOLERANCE])

/-- Sum of the first `j` interarrival draws starting at oracle index `i`. -/
def intervalSum (draws : ℕ → Draws) (i : ℕ) : ℕ → ℚ
  | 0 => 0
  | Nat.succ j => intervalSum draws i j + (draws (i + j)).intervalDraw

theorem intervalSum_shift (draws : ℕ → Draws) :
    ∀ (j i : ℕ), intervalSum draws i (j + 1) =
      (draws i).intervalDraw + intervalSum draws (i + 1) j := by
  intro j
  induction j with
  | zero => intro i; simp [intervalSum]
  | succ j ih =>
    intro i
    show intervalSum draws i (j + 1) + (draws (i + (j + 1))).intervalDraw = _
    rw [ih i]
    have hidx : i + (j + 1) = (i + 1) + j := by omega
    rw [hidx]
    show _ = (draws i).intervalDraw +
      (intervalSum draws (i + 1) j + (draws ((i + 1) + j)).intervalDraw)
    ring

theorem intervalSum_nonneg (draws : ℕ → Draws)
    (hpos : ∀ i, 0 ≤ (draws i).intervalDraw) (i : ℕ) :
    ∀ j, 0 ≤ intervalSum draws i j := by
  intro j
  induction j with
  | zero => simp [intervalSum]
  | succ j ih =>
    show 0 ≤ intervalSum draws i j + (draws (i + j)).intervalDraw
    have := hpos (i + j)
    linarith

theorem intervalSum_mono (draws : ℕ → Draws)
    (hpos : ∀ i, 0 ≤ (draws i).intervalDraw) (i j : ℕ) :
    intervalSum draws i j ≤ intervalSum draws i (j + 1) := by
  show intervalSum draws i j ≤ intervalSum draws i j + _
  have := hpos (i + j)
  linarith

/-- The timestamps produced by the generator loop are exactly the running
prefix sums of the interarrival draws added to the start time. -/
theorem generate_orders_from_timestamps (f : OrderFactory)
    (draws : ℕ → Draws) :
    ∀ (n i : ℕ) (current : ℚ),
      (f.generate_orders_from draws current i n).map Order.timestamp =
        (List.range n).map (fun j => current + intervalSum draws i j) := by
  intro n
  induction n with
  | zero =>
    intro i current
    simp [OrderFactory.generate_orders_from]
  | succ n ih =>
    intro i current
    simp only [OrderFactory.generate_orders_from, List.map_cons]
    rw [List.range_succ_eq_map, List.map_cons, List.map_map]
    congr 1
    · show current = current + intervalSum draws i 0
      simp [intervalSum]
    · rw [ih (i + 1) (current + (draws i).intervalDraw)]
      refine List.map_congr_left ?_
      intro j hj
      show current + (draws i).intervalDraw + intervalSum draws (i + 1) j =
        current + intervalSum draws i (j + 1)
      rw [intervalSum_shift draws j i]
      ring

theorem generate_orders_from_length (f : OrderFactory) (draws : ℕ → Draws)
    (n i : ℕ) (current : ℚ) :
    (f.generate_orders_from draws current i n).length = n := by
  have h := congrArg List.length (generate_orders_from_timestamps f draws n i current)
  simpa using h

/-- C8 (about the runnable revision, plus the failure of the later one):
for every factory configuration, oracle stream of non-negative
interarrival draws, start time and count n, `generate_orders` of
src/orderbook_factory.py returns exactly n orders whose timestamps are
the prefix sums of the draws added to the start time — hence
non-decreasing, the first exactly at the start time, each subsequent one
the previous advanced by its non-negative draw — and every timestamp is
at or after the start time.  The `generate_orders` of the later
src/order_factory.py revision cannot return orders at all: for any
positive count it raises `NameError` (unbound `order_amount`, and its
constructor already reads the unbound `static_order_type`). -/
theorem generate_orders_spec :
    (∀ (f : OrderFactory) (draws : ℕ → Draws) (start : ℚ) (n : ℕ),
      (∀ i, 0 ≤ (draws i).intervalDraw) →
      (f.generate_orders draws start n).length = n ∧
      (f.generate_orders draws start n).map Order.timestamp =
        (List.range n).map (fun j => start + intervalSum draws 0 j) ∧
      List.Chain' (fun a b => a.timestamp ≤ b.timestamp)
        (f.generate_orders draws start n) ∧
      (∀ o ∈ f.generate_orders draws start n, start ≤ o.timestamp)) ∧
    (∀ (f2 : OrderFactory2) (draws : ℕ → Draws) (start : ℚ) (n : ℕ),
      0 < n →
      OrderFactory2.generate_orders f2 draws start 0 n =
        .error PyErr.nameError) := by
  constructor
  · intro f draws start n hpos
    have hmap : (f.generate_orders draws start n).map Order.timestamp =
        (List.range n).map (fun j => start + intervalSum draws 0 j) :=
      generate_orders_from_timestamps f draws n 0 start
    have hlen : (f.generate_orders draws start n).length = n :=
      generate_orders_from_length f draws n 0 start
    refine ⟨hlen, hmap, ?_, ?_⟩
    · have hchain : List.Chain' (fun a b : ℚ => a ≤ b)
          ((f.generate_orders draws start n).map Order.timestamp) := by
        rw [hmap]
        rw [List.chain'_map]
        match n with
        | 0 => exact List.chain'_nil.{0}
        | Nat.succ m =>
          rw [List.chain'_range_succ]
          intro j hj
          have := intervalSum_mono draws hpos 0 j
          show start + intervalSum draws 0 j ≤
            start + intervalSum draws 0 (j + 1)
          linarith
      rw [List.chain'_map] at hchain
      exact hchain
    · intro o ho
      have hts : o.timestamp ∈
          (List.range n).map (fun j => start + intervalSum draws 0 j) := by
        rw [← hmap]
        exact List.mem_map_of_mem Order.timestamp ho
      rcases List.mem_map.mp hts with ⟨j, -, hj⟩
      have := intervalSum_nonneg draws hpos 0 j
      rw [← hj]
      linarith
  · intro f2 draws start n hn
    have hgen : f2.generate_order (draws 0) = .error PyErr.nameError := by
      simp [OrderFactory2.generate_order]
    match n with
    | Nat.succ m =>
      unfold OrderFactory2.generate_orders
      rw [hgen]

/-- A price produced by `round_up` always passes the tick validator:
it is an exact multiple of the tick, so the tick error is zero. -/
theorem round_up_aligned (x t : ℚ) (ht : t ≠ 0) :
    validLimitPrice t (round_up x t) = true := by
  unfold validLimitPrice round_up
  rw [mul_comm ((⌈x / t⌉ : ℤ) : ℚ) t, tickError_mult t ⌈x / t⌉ ht]
  norm_num [ERROR_TOLERANCE]

/-- Field values of a generated order. -/
theorem generate_order_fields (f : OrderFactory) (d : Draws) :
    (f.generate_order d).order_type = f.genOrderType d ∧
    (f.generate_order d).instrument = f.instrument ∧
    (f.generate_order d).price = (if f.genOrderType d = OrderType.LIMIT then
      some (f.generate_order_price (f.genOrderSide d) d) else none) :=
  ⟨rfl, rfl, rfl⟩

/-- C9 (amended): the reference midprice of a generated LIMIT price is
the configured static midprice when it is set and nonzero, and is
queried live from the associated order book when the static midprice is
absent or zero (Python truthiness treats the float `0.0` like `None`);
the resulting price is always rounded up onto the tick grid, hence
tick-aligned within the 1e-9 tolerance, and `add_order` never raises
`InvalidPriceError` on a generated order. -/
theorem generated_price_spec :
    (∀ (f : OrderFactory) (side : OrderSide) (d : Draws) (m : ℚ),
      f.static_midprice = some m → m ≠ 0 →
      f.generate_order_price side d =
        round_up (m + (if side = OrderSide.SELL then d.offsetDraw
          else -d.offsetDraw)) f.instrument.min_tick_size) ∧
    (∀ (f : OrderFactory) (side : OrderSide) (d : Draws),
      (f.static_midprice = none ∨ f.static_midprice = some 0) →
      f.generate_order_price side d =
        round_up (f.orderbook.get_midprice +
          (if side = OrderSide.SELL then d.offsetDraw
            else -d.offsetDraw)) f.instrument.min_tick_size) ∧
    (∀ (f : OrderFactory) (side : OrderSide) (d : Draws),
      0 < f.instrument.min_tick_size →
      validLimitPrice f.instrument.min_tick_size
        (f.generate_order_price side d) = true) ∧
    (∀ (f : OrderFactory) (d : Draws) (bk : OrderBook),
      0 < f.instrument.min_tick_size →
      add_order bk (f.generate_order d) ≠
        .error BookError.invalidPrice) := by
  refine ⟨?_, ?_, ?_, ?_⟩
  · intro f side d m hsm hm
    simp only [OrderFactory.generate_order_price, hsm, if_neg hm]
  · intro f side d hcase
    rcases hcase with hc | hc
    · simp only [OrderFactory.generate_order_price, hc]
    · simp [OrderFactory.generate_order_price, hc]
  · intro f side d ht
    exact round_up_aligned _ _ ht.ne'
  · intro f d bk ht hbad
    unfold add_order at hbad
    by_cases hi : (f.generate_order d).instrument ≠ bk.instrument
    · rw [if_pos hi] at hbad
      simp at hbad
    rw [if_neg hi] at hbad
    by_cases hlim2 : (f.generate_order d).order_type = OrderType.LIMIT ∧
        ERROR_TOLERANCE < tickError bk.instrument.min_tick_size
          (f.generate_order d).priceQ
    · rcases hlim2 with ⟨hl, hlt⟩
      have hty : f.genOrderType d = OrderType.LIMIT := by
        rw [← (generate_order_fields f d).1]
        exact hl
      have hpr : (f.generate_order d).priceQ =
          f.generate_order_price (f.genOrderSide d) d := by
        rw [Order.priceQ, (generate_order_fields f d).2.2, if_pos hty]
        rfl
      have hins : bk.instrument.min_tick_size =
          f.instrument.min_tick_size := by
        rw [← not_ne_iff.mp hi, (generate_order_fields f d).2.1]
      have hvalid := round_up_aligned
        ((match f.static_midprice with
          | some m => if m = 0 then f.orderbook.get_midprice else m
          | none => f.orderbook.get_midprice) +
          (if f.genOrderSide d = OrderSide.SELL then d.offsetDraw
            else -d.offsetDraw)) f.instrument.min_tick_size ht.ne'
      have hle : tickError f.instrument.min_tick_size
          (f.generate_order_price (f.genOrderSide d) d) ≤ ERROR_TOLERANCE := by
        simpa [validLimitPrice, OrderFactory.generate_order_price] using hvalid
      rw [hpr, hins] at hlt
      exact absurd hlt (not_lt.mpr hle)
    · rw [if_neg hlim2] at hbad
      cases hs : (f.generate_order d).side
      · rw [hs] at hbad
        cases hbad
      · rw [hs] at hbad
        cases hbad

/-- A two-sided book whose spec-modelled midprice is 100.5. -/
def bkMid : OrderBook :=
  { instrument := instrSIM, bids := [oLimBuyW], asks := [oLimSellW],
    trades := [] }

/-- Factory configured with a static midprice of exactly 0.0 over
`bkMid`: Python truthiness makes the code ignore this configured value. -/
def fZeroMid : OrderFactory :=
  { instrument := instrSIM, orderbook := bkMid, arrivals_rate := 1,
    buy_prob := 1 / 2, limit_order_prob := 1, min_consideration := 1,
    max_amount := 100, max_halfspread := 1 / 20,
    static_order_type := some OrderType.LIMIT, static_midprice := some 0 }

/-- Oracle record with a zero uniform offset draw and unit interarrival. -/
def dZero : Draws :=
  { counterpartDraw := 1000, intervalDraw := 1, sideDraw := 0, typeDraw := 0,
    amountDraw := 1, offsetDraw := 0, hashDraw := 5 }

/-- Counterexample to C9 as stated: with the static midprice configured
(`some 0.0`) the generated price is computed from the live book midprice
100.5 — (100 + 101)/2 rounded up to the 0.01 grid — not from the
configured static midprice, which would give 0; the claim's "configured
static midprice when set" is falsified at this input. -/
theorem static_midprice_zero_counterexample :
    fZeroMid.static_midprice = some 0 ∧
    fZeroMid.generate_order_price OrderSide.SELL dZero = 201 / 2 ∧
    round_up ((0 : ℚ) + dZero.offsetDraw) fZeroMid.instrument.min_tick_size
      = 0 ∧
    (201 : ℚ) / 2 ≠ 0 := by
  refine ⟨rfl, ?_, ?_, by norm_num⟩
  · norm_num [OrderFactory.generate_order_price, fZeroMid, bkMid,
      OrderBook.get_midprice, Order.priceQ, oLimBuyW, oLimSellW, round_up,
      instrSIM, dZero]
  · norm_num [round_up, fZeroMid, instrSIM, dZero]

/-- Witness for C9: the generated price in the `fZeroMid` scenario passes
tick validation and cannot be rejected with `InvalidPriceError`. -/
theorem generated_price_spec_witness :
    validLimitPrice fZeroMid.instrument.min_tick_size
      (fZeroMid.generate_order_price OrderSide.SELL dZero) = true ∧
    add_order bkSIM (fZeroMid.generate_order dZero) ≠
      .error BookError.invalidPrice := by
  constructor
  · exact generated_price_spec.2.2.1 fZeroMid OrderSide.SELL dZero
      (by norm_num [fZeroMid, instrSIM])
  · exact generated_price_spec.2.2.2 fZeroMid dZero bkSIM
      (by norm_num [fZeroMid, instrSIM])

/-- Witness for C8: two orders generated from a constant oracle stream
starting at time 0 have non-decreasing timestamps at or after 0. -/
theorem generate_orders_spec_witness :
    (fZeroMid.generate_orders (fun _ => dZero) 0 2).length = 2 ∧
    List.Chain' (fun a b => a.timestamp ≤ b.timestamp)
      (fZeroMid.generate_orders (fun _ => dZero) 0 2) ∧
    (∀ o ∈ fZeroMid.generate_orders (fun _ => dZero) 0 2,
      (0 : ℚ) ≤ o.timestamp) := by
  have h := generate_orders_spec.1 fZeroMid (fun _ => dZero) 0 2
    (fun i => by norm_num [dZero])
  exact ⟨h.1, h.2.2.1, h.2.2.2⟩
